import Mathlib

/-!
# rate-limiter: a shallow embedding of `rate_limter.go`

The limiter keeps a local token balance (`leftQuota`) and, when the balance is
negative, asks a shared Redis counter for a new batch (`aqquireQuota`).  The
Redis client and the `time` package are the outside world of the program.  They
are modelled as transition functions over an arbitrary state type `σ`, so that
a statement quantified over them holds for every store behaviour and every
clock.  The mutex of `CanPass` serialises the calls; one call is one function
application here.
-/

namespace Ratelimter

/-! ## Constants -/

/-- Go `const tokenQuota = 10`. -/
def tokenQuota : Int := 10

/-- Go `const limiterScript`: the Lua script (incr, expire on the first increment). -/
def limiterScript : String :=
  "\nlocal QuotaNumPerSec\nQuotaNumPerSec = redis.call(\"incr\",KEYS[1])\nif tonumber(QuotaNumPerSec) == 1 then\n    redis.call(\"expire\",KEYS[1],1)\nend\nreturn QuotaNumPerSec\n"

/-- Go `const loadScriptRetryTimes = 3`. -/
def loadScriptRetryTimes : Int := 3

/-- Go `time.Microsecond`, in nanoseconds. -/
def Microsecond : Int := 1000

/-- Go `time.Millisecond`, in nanoseconds. -/
def Millisecond : Int := 1000000

/-- Go `var redisLimitDuration = 100*int64(time.Microsecond)`. -/
def redisLimitDuration : Int := 100 * Microsecond

/-! ## Machine integers -/

/-- The value of an `int64` computation whose mathematical result is `x`. -/
def wrapInt64 (x : Int) : Int :=
  (x + 9223372036854775808) % 18446744073709551616 - 9223372036854775808

/-- Subtraction `a - b` on `int64`. -/
def subInt64 (a b : Int) : Int := wrapInt64 (a - b)

/-! ## The outside world -/

/-- A Go `interface{}` value as returned by `EvalSha`; `v.(int)` succeeds
only on `Value.int`. -/
inductive Value where
  | int (n : Int)
  | int64 (n : Int)
  | str (s : String)
  | nil
  deriving DecidableEq, Repr

/-- A Go `error`: `none` is `nil`. -/
abbrev GoError := Option String

/-- One method call on the Redis client. -/
inductive Call where
  | ScriptLoad (script : String)
  | EvalSha (sha1 : String) (keys : List String)
  | ScriptExists (scripts : List String)
  deriving DecidableEq, Repr

/-- Go `type RedisClient interface`: each method may change the outside state and
returns its Go result pair. -/
structure RedisClient (σ : Type) where
  ScriptLoad : σ → String → σ × (String × GoError)
  EvalSha : σ → String → List String → σ × (Value × GoError)
  ScriptExists : σ → List String → σ × (List Bool × GoError)

/-- The `time` package: `Now` is `time.Now().UnixNano()`, `Sleep` is
`time.Sleep` with the duration in nanoseconds. -/
structure Time (σ : Type) where
  Now : σ → σ × Int
  Sleep : Int → σ → σ

/-- The outside state together with the log of client calls made so far. -/
structure World (σ : Type) where
  ext : σ
  calls : List Call

/-- Go `type RateLimiter struct` (the mutex is the serialisation of calls). -/
structure RateLimiter (σ : Type) where
  redisKey : String
  redisClient : RedisClient σ
  limitQuotaNumPerSec : Int
  leftQuota : Int
  scriptSHA1 : String
  lastAqquireRedisTmeStamp : Int

variable {σ : Type}

/-- The call `cli.ScriptLoad(script)`, logged. -/
def callScriptLoad (cli : RedisClient σ) (w : World σ) (script : String) :
    World σ × (String × GoError) :=
  (⟨(cli.ScriptLoad w.ext script).1, w.calls ++ [Call.ScriptLoad script]⟩,
    (cli.ScriptLoad w.ext script).2)

/-- The call `cli.EvalSha(sha1, keys)`, logged. -/
def callEvalSha (cli : RedisClient σ) (w : World σ) (sha1 : String) (keys : List String) :
    World σ × (Value × GoError) :=
  (⟨(cli.EvalSha w.ext sha1 keys).1, w.calls ++ [Call.EvalSha sha1 keys]⟩,
    (cli.EvalSha w.ext sha1 keys).2)

/-- The call `cli.ScriptExists(scripts...)`, logged. -/
def callScriptExists (cli : RedisClient σ) (w : World σ) (scripts : List String) :
    World σ × (List Bool × GoError) :=
  (⟨(cli.ScriptExists w.ext scripts).1, w.calls ++ [Call.ScriptExists scripts]⟩,
    (cli.ScriptExists w.ext scripts).2)

/-- The reading `time.Now().UnixNano()`. -/
def readClock (tm : Time σ) (w : World σ) : World σ × Int :=
  (⟨(tm.Now w.ext).1, w.calls⟩, (tm.Now w.ext).2)

/-- The pause `time.Sleep(d)`. -/
def sleep (tm : Time σ) (d : Int) (w : World σ) : World σ :=
  ⟨tm.Sleep d w.ext, w.calls⟩

/-! ## The program -/

/-- The `for` loop of `redisloadScript` with `n` iterations left, followed by
the final `return cli.ScriptLoad(script)`. -/
def redisloadScriptLoop (tm : Time σ) (cli : RedisClient σ) (script : String) :
    Nat → World σ → World σ × (String × GoError)
  | 0, w => callScriptLoad cli w script
  | n + 1, w =>
    let r := callScriptLoad cli w script
    if r.2.2 = none then r
    else redisloadScriptLoop tm cli script n (sleep tm (10 * Millisecond) r.1)

/-- Go `func redisloadScript(cli, script, retryTimes)`. -/
def redisloadScript (tm : Time σ) (cli : RedisClient σ) (w : World σ) (script : String)
    (retryTimes : Int) : World σ × (String × GoError) :=
  if retryTimes ≤ 0 then callScriptLoad cli w script
  else redisloadScriptLoop tm cli script (retryTimes - 1).toNat w

/-- Go `func (limiter *RateLimiter) redisExcuteLua()`. -/
def redisExcuteLua (tm : Time σ) (w : World σ) (limiter : RateLimiter σ) :
    World σ × RateLimiter σ × (Value × GoError) :=
  let r := callEvalSha limiter.redisClient w limiter.scriptSHA1 [limiter.redisKey]
  if r.2.2 = none then (r.1, limiter, (r.2.1, none))
  else
    let e := callScriptExists limiter.redisClient r.1 [limiter.scriptSHA1]
    if e.2.2 ≠ none ∨ e.2.1.length = 0 ∨ e.2.1.head? ≠ some true then
      let s := redisloadScript tm limiter.redisClient e.1 limiterScript 0
      if s.2.2 ≠ none then (s.1, limiter, r.2)
      else
        let limiter1 := { limiter with scriptSHA1 := s.2.1 }
        let r2 := callEvalSha limiter1.redisClient s.1 limiter1.scriptSHA1 [limiter1.redisKey]
        (r2.1, limiter1, r2.2)
    else (e.1, limiter, r.2)

/-- The guard of `aqquireQuota`:
`time.Now().UnixNano()-limiter.lastAqquireRedisTmeStamp<redisLimitDuration`,
for the clock reading `now`. -/
def throttled (now : Int) (limiter : RateLimiter σ) : Prop :=
  subInt64 now limiter.lastAqquireRedisTmeStamp < redisLimitDuration

instance (now : Int) (limiter : RateLimiter σ) : Decidable (throttled now limiter) :=
  inferInstanceAs (Decidable (_ < _))

/-- Go `func (limiter *RateLimiter) aqquireQuota() bool`. -/
def aqquireQuota (tm : Time σ) (w : World σ) (limiter : RateLimiter σ) :
    World σ × RateLimiter σ × Bool :=
  let t := readClock tm w
  if throttled t.2 limiter then
    (t.1, limiter, false)
  else
    let r := redisExcuteLua tm t.1 limiter
    if r.2.2.2 ≠ none then (r.1, r.2.1, false)
    else
      let t2 := readClock tm r.1
      let limiter2 := { r.2.1 with lastAqquireRedisTmeStamp := t2.2 }
      match r.2.2.1 with
      | Value.int nowQuotaNum =>
        if nowQuotaNum ≥ limiter2.limitQuotaNumPerSec then (t2.1, limiter2, false)
        else (t2.1, limiter2, true)
      | _ => (t2.1, limiter2, false)

/-- Go `func (limiter *RateLimiter) CanPass() bool`. -/
def CanPass (tm : Time σ) (w : World σ) (limiter : RateLimiter σ) :
    World σ × RateLimiter σ × Bool :=
  if limiter.leftQuota ≥ 0 then
    (w, { limiter with leftQuota := limiter.leftQuota - 1 }, true)
  else
    let r := aqquireQuota tm w limiter
    if r.2.2 = false then (r.1, r.2.1, false)
    else
      let limiter1 := { r.2.1 with leftQuota := tokenQuota }
      (r.1, { limiter1 with leftQuota := limiter1.leftQuota - 1 }, true)

/-- Go `func NewRateLimiter(psm, method, redisClient, limitQuotaNumPerSec)`;
a nil client is `none`, and a nil result is `none`. -/
def NewRateLimiter (tm : Time σ) (w : World σ) (psm method : String)
    (redisClient : Option (RedisClient σ)) (limitQuotaNumPerSec : Int) :
    World σ × Option (RateLimiter σ) :=
  match redisClient with
  | none => (w, none)
  | some cli =>
    if limitQuotaNumPerSec ≤ 0 ∨ psm.utf8ByteSize = 0 then (w, none)
    else
      let s := redisloadScript tm cli w limiterScript 0
      if s.2.2 ≠ none then (s.1, none)
      else
        (s.1, some
          { redisKey := psm ++ "_" ++ method
            redisClient := cli
            limitQuotaNumPerSec := limitQuotaNumPerSec
            leftQuota := 0
            scriptSHA1 := s.2.1
            lastAqquireRedisTmeStamp := 0 })


/-! ## Runs of serialised calls -/

/-- What one `CanPass` call of a run did: its return value and the client
calls it made. -/
structure Outcome where
  pass : Bool
  calls : List Call
  deriving DecidableEq, Repr

/-- The number of `EvalSha` calls in a log. -/
def evalShaCount (cs : List Call) : Nat :=
  (cs.filter fun c => match c with
    | Call.EvalSha _ _ => true
    | _ => false).length

/-- A run of `n` successive `CanPass` calls on one limiter (the order the mutex gives
them), with the outcome of each. -/
def runCanPass (tm : Time σ) : Nat → World σ → RateLimiter σ →
    List Outcome × World σ × RateLimiter σ
  | 0, w, limiter => ([], w, limiter)
  | n + 1, w, limiter =>
    let r := CanPass tm w limiter
    let rest := runCanPass tm n r.1 r.2.1
    (⟨r.2.2, r.1.calls.drop w.calls.length⟩ :: rest.1, rest.2)

/-- The same run on the limiter `NewRateLimiter` returns, when it returns one. -/
def runFresh (tm : Time σ) (w : World σ) (psm method : String) (cli : RedisClient σ)
    (limitQuotaNumPerSec : Int) (n : Nat) :
    Option (List Outcome × World σ × RateLimiter σ) :=
  match NewRateLimiter tm w psm method (some cli) limitQuotaNumPerSec with
  | (w1, some limiter) => some (runCanPass tm n w1 limiter)
  | (_, none) => none

/-- The number of calls of a run that returned `true` before the first call
that issued an `EvalSha`. -/
def passedBeforeFirstEvalSha : List Outcome → Nat
  | [] => 0
  | o :: os =>
    if 0 < evalShaCount o.calls then 0
    else (if o.pass then 1 else 0) + passedBeforeFirstEvalSha os

/-- The number of calls of a run that returned `true`. -/
def passCount (os : List Outcome) : Nat :=
  (os.filter fun o => o.pass).length

/-! ## Concrete stores and clocks

The outside state of the examples is a pair: the number of `EvalSha` calls
served so far and the number of clock readings taken so far. -/

/-- A store that follows the Lua script inside one window: its `k`-th
`EvalSha` returns `k` as a Go `int`. -/
def counterStore : RedisClient (Nat × Nat) where
  ScriptLoad s _ := (s, ("sha", none))
  EvalSha s _ _ := ((s.1 + 1, s.2), (Value.int (s.1 + 1), none))
  ScriptExists s hs := (s, (hs.map fun _ => true, none))

/-- A store stubbed to always succeed and report the counter value 1. -/
def stubStore : RedisClient (Nat × Nat) where
  ScriptLoad s _ := (s, ("sha", none))
  EvalSha s _ _ := ((s.1 + 1, s.2), (Value.int 1, none))
  ScriptExists s hs := (s, (hs.map fun _ => true, none))

/-- A store whose every call returns an error. -/
def failingStore : RedisClient (Nat × Nat) where
  ScriptLoad s _ := (s, ("", some "connection refused"))
  EvalSha s _ _ := ((s.1 + 1, s.2), (Value.nil, some "connection refused"))
  ScriptExists s _ := (s, ([], some "connection refused"))

/-- A store whose counter is already at 100: every `EvalSha` returns 100. -/
def fullStore : RedisClient (Nat × Nat) where
  ScriptLoad s _ := (s, ("sha", none))
  EvalSha s _ _ := ((s.1 + 1, s.2), (Value.int 100, none))
  ScriptExists s hs := (s, (hs.map fun _ => true, none))

/-- A clock whose `k`-th reading is `k` milliseconds. -/
def msClock : Time (Nat × Nat) where
  Now s := ((s.1, s.2 + 1), 1000000 * (s.2 + 1))
  Sleep _ s := s

/-- A clock that starts at one second and advances ten nanoseconds a reading. -/
def fastClock : Time (Nat × Nat) where
  Now s := ((s.1, s.2 + 1), 1000000000 + 10 * s.2)
  Sleep _ s := s

/-- A store that goes down right after the limiter was built: `ScriptLoad`
succeeds as long as no `EvalSha` was served, and from the first `EvalSha` on
every call returns an error.  The first component of the state counts the
`EvalSha` calls. -/
def outageStore : RedisClient (Nat × Nat) where
  ScriptLoad s _ :=
    if s.1 = 0 then (s, ("sha", none)) else (s, ("", some "connection refused"))
  EvalSha s _ _ := ((s.1 + 1, s.2), (Value.nil, some "connection refused"))
  ScriptExists s _ := (s, ([], some "connection refused"))

/-- A limiter for key `svc_m` with the handle `sha`, as `NewRateLimiter` builds
it, put in the state with the given balance and timestamp. -/
def limiterAt (cli : RedisClient (Nat × Nat)) (limit left last : Int) :
    RateLimiter (Nat × Nat) :=
  { redisKey := "svc_m"
    redisClient := cli
    limitQuotaNumPerSec := limit
    leftQuota := left
    scriptSHA1 := "sha"
    lastAqquireRedisTmeStamp := last }

/-- The outside state before anything happened. -/
def world0 : World (Nat × Nat) := ⟨(0, 0), []⟩

/-! ## Observations on runs and on the steps of `redisExcuteLua` -/

/-- The number of `ScriptLoad` calls in a log. -/
def scriptLoadCount (cs : List Call) : Nat :=
  (cs.filter fun c => match c with
    | Call.ScriptLoad _ => true
    | _ => false).length

/-- The number of `ScriptExists` calls in a log. -/
def scriptExistsCount (cs : List Call) : Nat :=
  (cs.filter fun c => match c with
    | Call.ScriptExists _ => true
    | _ => false).length

/-- The number of calls, among `n` successive `CanPass` calls, that went to
`aqquireQuota` (the balance was negative) and got `true` from it. -/
def successfulSyncs (tm : Time σ) : Nat → World σ → RateLimiter σ → Nat
  | 0, _, _ => 0
  | n + 1, w, limiter =>
    (if limiter.leftQuota < 0 ∧ (aqquireQuota tm w limiter).2.2 = true then 1 else 0) +
      successfulSyncs tm n (CanPass tm w limiter).1 (CanPass tm w limiter).2.1

/-- The first statement of `redisExcuteLua`: `EvalSha` with the current handle. -/
def firstEvalSha (w : World σ) (limiter : RateLimiter σ) : World σ × (Value × GoError) :=
  callEvalSha limiter.redisClient w limiter.scriptSHA1 [limiter.redisKey]

/-- The `ScriptExists` query `redisExcuteLua` makes after a failed `EvalSha`. -/
def existsCheck (w : World σ) (limiter : RateLimiter σ) : World σ × (List Bool × GoError) :=
  callScriptExists limiter.redisClient (firstEvalSha w limiter).1 [limiter.scriptSHA1]

/-- The condition `serr!=nil || len(boollst)==0||boollst[0]!=true` of
`redisExcuteLua`: the query did not confirm the handle. -/
def notConfirmed (w : World σ) (limiter : RateLimiter σ) : Prop :=
  (existsCheck w limiter).2.2 ≠ none ∨ (existsCheck w limiter).2.1.length = 0 ∨
    (existsCheck w limiter).2.1.head? ≠ some true

instance (w : World σ) (limiter : RateLimiter σ) : Decidable (notConfirmed w limiter) :=
  inferInstanceAs (Decidable (_ ∨ _))

/-- The re-registration `redisloadScript(limiter.redisClient, limiterScript, 0)`
of `redisExcuteLua`. -/
def reRegister (tm : Time σ) (w : World σ) (limiter : RateLimiter σ) :
    World σ × (String × GoError) :=
  redisloadScript tm limiter.redisClient (existsCheck w limiter).1 limiterScript 0

/-- The second `EvalSha` of `redisExcuteLua`, with the handle the
re-registration returned. -/
def retryEvalSha (tm : Time σ) (w : World σ) (limiter : RateLimiter σ) :
    World σ × (Value × GoError) :=
  callEvalSha limiter.redisClient (reRegister tm w limiter).1 (reRegister tm w limiter).2.1
    [limiter.redisKey]

/-- A store that has lost its scripts (a restart): `EvalSha` and `ScriptExists`
know no handle until `ScriptLoad` has run, which registers the handle `sha2`;
the first component of the state is 1 once the script is registered. -/
def lostScriptStore : RedisClient (Nat × Nat) where
  ScriptLoad s _ := ((1, s.2), ("sha2", none))
  EvalSha s sha _ :=
    if s.1 = 1 ∧ sha = "sha2" then (s, (Value.int 1, none))
    else (s, (Value.nil, some "NOSCRIPT"))
  ScriptExists s hs := (s, (hs.map fun h => decide (s.1 = 1 ∧ h = "sha2"), none))

/-- A store that has lost its scripts and whose first `ScriptLoad` fails; the
second one registers the handle `sha2`.  The first component of the state
counts the `ScriptLoad` calls. -/
def flakyLoadStore : RedisClient (Nat × Nat) where
  ScriptLoad s _ :=
    ((s.1 + 1, s.2), if s.1 = 0 then ("", some "timeout") else ("sha2", none))
  EvalSha s sha _ :=
    if 2 ≤ s.1 ∧ sha = "sha2" then (s, (Value.int 1, none))
    else (s, (Value.nil, some "NOSCRIPT"))
  ScriptExists s hs := (s, (hs.map fun h => decide (2 ≤ s.1 ∧ h = "sha2"), none))

/-- A store that confirms every handle in `ScriptExists` while its `EvalSha`
fails (the command is refused for another reason than a missing script). -/
def confirmingStore : RedisClient (Nat × Nat) where
  ScriptLoad s _ := (s, ("sha", none))
  EvalSha s _ _ := (s, (Value.nil, some "BUSY"))
  ScriptExists s hs := (s, (hs.map fun _ => true, none))

/-! ## Frame lemmas -/

theorem redisExcuteLua_frame (tm : Time σ) (w : World σ) (l : RateLimiter σ) :
    (redisExcuteLua tm w l).2.1.leftQuota = l.leftQuota ∧
    (redisExcuteLua tm w l).2.1.limitQuotaNumPerSec = l.limitQuotaNumPerSec ∧
    (redisExcuteLua tm w l).2.1.lastAqquireRedisTmeStamp = l.lastAqquireRedisTmeStamp ∧
    (redisExcuteLua tm w l).2.1.redisClient = l.redisClient ∧
    (redisExcuteLua tm w l).2.1.redisKey = l.redisKey := by
  unfold redisExcuteLua
  simp only []
  split_ifs <;> simp

theorem aqquireQuota_frame (tm : Time σ) (w : World σ) (l : RateLimiter σ) :
    (aqquireQuota tm w l).2.1.leftQuota = l.leftQuota ∧
    (aqquireQuota tm w l).2.1.limitQuotaNumPerSec = l.limitQuotaNumPerSec ∧
    (aqquireQuota tm w l).2.1.redisClient = l.redisClient ∧
    (aqquireQuota tm w l).2.1.redisKey = l.redisKey := by
  have hf := redisExcuteLua_frame tm (readClock tm w).1 l
  unfold aqquireQuota
  simp only []
  split_ifs
  · simp
  · simp [hf]
  · split
    · split_ifs <;> simp [hf]
    · simp [hf]

theorem canPass_of_nonneg (tm : Time σ) (w : World σ) (l : RateLimiter σ)
    (h : 0 ≤ l.leftQuota) :
    CanPass tm w l = (w, { l with leftQuota := l.leftQuota - 1 }, true) := by
  unfold CanPass
  simp [h]

theorem canPass_of_neg (tm : Time σ) (w : World σ) (l : RateLimiter σ)
    (h : l.leftQuota < 0) :
    CanPass tm w l =
      if (aqquireQuota tm w l).2.2 = false then
        ((aqquireQuota tm w l).1, (aqquireQuota tm w l).2.1, false)
      else
        ((aqquireQuota tm w l).1,
          { (aqquireQuota tm w l).2.1 with leftQuota := tokenQuota - 1 }, true) := by
  unfold CanPass
  simp [not_le.mpr h]

theorem aqquireQuota_of_throttled (tm : Time σ) (w : World σ) (l : RateLimiter σ)
    (h : throttled (readClock tm w).2 l) :
    aqquireQuota tm w l = ((readClock tm w).1, l, false) := by
  unfold aqquireQuota
  simp [h]

theorem aqquireQuota_true_iff (tm : Time σ) (w : World σ) (l : RateLimiter σ) :
    (aqquireQuota tm w l).2.2 = true ↔
      ¬ throttled (readClock tm w).2 l ∧
      (redisExcuteLua tm (readClock tm w).1 l).2.2.2 = none ∧
      ∃ v : Int, (redisExcuteLua tm (readClock tm w).1 l).2.2.1 = Value.int v ∧
        v < l.limitQuotaNumPerSec := by
  have hf := redisExcuteLua_frame tm (readClock tm w).1 l
  unfold aqquireQuota
  simp only []
  by_cases hnt : throttled (readClock tm w).2 l
  · simp [hnt]
  · by_cases herr : (redisExcuteLua tm (readClock tm w).1 l).2.2.2 = none
    · simp only [hnt, herr, if_false, ne_eq, not_true_eq_false, not_false_eq_true, true_and]
      split
      · rename_i v hv
        simp only [hv, hf.2.1]
        split_ifs with hge
        · simp
          omega
        · simp
          omega
      · rename_i hv
        simp
        intro v hv2
        exact absurd hv2 (hv v)
    · simp [hnt, herr]

theorem canPass_of_sync_false (tm : Time σ) (w : World σ) (l : RateLimiter σ)
    (h : l.leftQuota < 0) (hf : (aqquireQuota tm w l).2.2 = false) :
    CanPass tm w l = ((aqquireQuota tm w l).1, (aqquireQuota tm w l).2.1, false) := by
  rw [canPass_of_neg tm w l h]
  simp [hf]

theorem redisExcuteLua_of_ok (tm : Time σ) (w : World σ) (l : RateLimiter σ)
    (h : (l.redisClient.EvalSha w.ext l.scriptSHA1 [l.redisKey]).2.2 = none) :
    redisExcuteLua tm w l =
      ((callEvalSha l.redisClient w l.scriptSHA1 [l.redisKey]).1, l,
        ((l.redisClient.EvalSha w.ext l.scriptSHA1 [l.redisKey]).2.1, none)) := by
  unfold redisExcuteLua
  simp [callEvalSha, h]

/-- With a store whose every `EvalSha` answers, without error, an `int` at or
above the limit, no synchronization succeeds. -/
theorem aqquireQuota_false_of_full (tm : Time σ) (w : World σ) (l : RateLimiter σ)
    (hstore : ∀ s sha keys, ∃ v : Int,
      (l.redisClient.EvalSha s sha keys).2 = (Value.int v, none) ∧
        l.limitQuotaNumPerSec ≤ v) :
    (aqquireQuota tm w l).2.2 = false := by
  by_contra hne
  have ht : (aqquireQuota tm w l).2.2 = true := by
    cases hb : (aqquireQuota tm w l).2.2
    · exact absurd hb hne
    · rfl
  obtain ⟨_, _, v, hv, hlt⟩ := (aqquireQuota_true_iff tm w l).mp ht
  obtain ⟨u, hu, hle⟩ := hstore (readClock tm w).1.ext l.scriptSHA1 [l.redisKey]
  have hok : (l.redisClient.EvalSha (readClock tm w).1.ext l.scriptSHA1 [l.redisKey]).2.2
      = none := by rw [hu]
  rw [redisExcuteLua_of_ok tm _ l hok, hu] at hv
  simp only [Value.int.injEq] at hv
  omega

theorem runCanPass_of_full (tm : Time σ) (n : Nat) :
    ∀ (w : World σ) (l : RateLimiter σ), l.leftQuota < 0 →
      (∀ s sha keys, ∃ v : Int,
        (l.redisClient.EvalSha s sha keys).2 = (Value.int v, none) ∧
          l.limitQuotaNumPerSec ≤ v) →
      (runCanPass tm n w l).1.map Outcome.pass = List.replicate n false ∧
      (runCanPass tm n w l).2.2.leftQuota = l.leftQuota := by
  induction n with
  | zero => intro w l _ _; simp [runCanPass]
  | succ n ih =>
    intro w l h hstore
    have hfalse := aqquireQuota_false_of_full tm w l hstore
    have hcp := canPass_of_sync_false tm w l h hfalse
    have hfr := aqquireQuota_frame tm w l
    have h1 : (CanPass tm w l).2.1.leftQuota < 0 := by rw [hcp]; simpa [hfr.1] using h
    have h2 : ∀ s sha keys, ∃ v : Int,
        ((CanPass tm w l).2.1.redisClient.EvalSha s sha keys).2 = (Value.int v, none) ∧
          (CanPass tm w l).2.1.limitQuotaNumPerSec ≤ v := by
      rw [hcp]; simpa [hfr.2.1, hfr.2.2.1] using hstore
    obtain ⟨ih1, ih2⟩ := ih (CanPass tm w l).1 (CanPass tm w l).2.1 h1 h2
    refine ⟨?_, ?_⟩
    · simp only [runCanPass, List.map_cons, ih1, List.replicate_succ]
      rw [hcp]
    · simp only [runCanPass, ih2]
      rw [hcp]; exact hfr.1

theorem redisExcuteLua_calls (tm : Time σ) (w : World σ) (l : RateLimiter σ) :
    ∃ cs, (redisExcuteLua tm w l).1.calls =
      w.calls ++ Call.EvalSha l.scriptSHA1 [l.redisKey] :: cs := by
  unfold redisExcuteLua
  simp only []
  split_ifs
  · exact ⟨[], by simp [callEvalSha]⟩
  · exact ⟨[Call.ScriptExists [l.scriptSHA1], Call.ScriptLoad limiterScript], by
      simp [callEvalSha, callScriptExists, redisloadScript, callScriptLoad]⟩
  · exact ⟨[Call.ScriptExists [l.scriptSHA1], Call.ScriptLoad limiterScript,
      Call.EvalSha (redisloadScript tm l.redisClient
        (callScriptExists l.redisClient
          (callEvalSha l.redisClient w l.scriptSHA1 [l.redisKey]).1 [l.scriptSHA1]).1
        limiterScript 0).2.1 [l.redisKey]], by
      simp [callEvalSha, callScriptExists, redisloadScript, callScriptLoad]⟩
  · exact ⟨[Call.ScriptExists [l.scriptSHA1]], by simp [callEvalSha, callScriptExists]⟩

theorem aqquireQuota_calls_of_not_throttled (tm : Time σ) (w : World σ) (l : RateLimiter σ)
    (hnt : ¬ throttled (readClock tm w).2 l) :
    ∃ cs, (aqquireQuota tm w l).1.calls =
      w.calls ++ Call.EvalSha l.scriptSHA1 [l.redisKey] :: cs := by
  obtain ⟨cs, hcs⟩ := redisExcuteLua_calls tm (readClock tm w).1 l
  refine ⟨cs, ?_⟩
  have hw : (readClock tm w).1.calls = w.calls := rfl
  rw [hw] at hcs
  unfold aqquireQuota
  simp only [hnt, if_false]
  split_ifs
  · exact hcs
  · split
    · split_ifs <;> simpa [readClock] using hcs
    · simpa [readClock] using hcs

theorem wrapInt64_of_range (x : Int) (hlo : -9223372036854775808 ≤ x)
    (hhi : x < 9223372036854775808) : wrapInt64 x = x := by
  unfold wrapInt64
  rw [Int.emod_eq_of_lt (by omega) (by omega)]
  omega

theorem canPass_calls_of_throttled (tm : Time σ) (w : World σ) (l : RateLimiter σ)
    (ht : throttled (readClock tm w).2 l) :
    (CanPass tm w l).1.calls = w.calls := by
  by_cases h : 0 ≤ l.leftQuota
  · rw [canPass_of_nonneg tm w l h]
  · rw [canPass_of_neg tm w l (not_le.mp h), aqquireQuota_of_throttled tm w l ht]
    simp [readClock]

theorem newRateLimiter_some (tm : Time σ) (w w1 : World σ) (psm method : String)
    (cli : Option (RedisClient σ)) (limit : Int) (l : RateLimiter σ)
    (hnew : NewRateLimiter tm w psm method cli limit = (w1, some l)) :
    l.leftQuota = 0 ∧ l.lastAqquireRedisTmeStamp = 0 ∧ l.limitQuotaNumPerSec = limit ∧
      l.redisKey = psm ++ "_" ++ method := by
  cases cli with
  | none => simp [NewRateLimiter] at hnew
  | some c =>
    by_cases hbad : limit ≤ 0 ∨ psm.utf8ByteSize = 0
    · simp [NewRateLimiter, hbad] at hnew
    · by_cases herr : (redisloadScript tm c w limiterScript 0).2.2 = none
      · simp only [NewRateLimiter, hbad, herr, if_false, ne_eq, not_true_eq_false,
          Prod.mk.injEq, Option.some.injEq] at hnew
        rw [← hnew.2]
        exact ⟨rfl, rfl, rfl, rfl⟩
      · simp [NewRateLimiter, hbad, herr] at hnew

theorem evalShaCount_drop_append (cs : List Call) (c : Call) (ds : List Call) :
    (cs ++ c :: ds).drop cs.length = c :: ds := by
  simp

theorem canPass_world_of_neg (tm : Time σ) (w : World σ) (l : RateLimiter σ)
    (h : l.leftQuota < 0) : (CanPass tm w l).1 = (aqquireQuota tm w l).1 := by
  rw [canPass_of_neg tm w l h]
  split_ifs <;> rfl

/-- With the tokens exhausted, no call returns `true` before an `EvalSha` is issued. -/
theorem passedBeforeFirstEvalSha_of_neg (tm : Time σ) (n : Nat) :
    ∀ (w : World σ) (l : RateLimiter σ), l.leftQuota < 0 →
      passedBeforeFirstEvalSha (runCanPass tm n w l).1 = 0 := by
  induction n with
  | zero => intro w l _; simp [runCanPass, passedBeforeFirstEvalSha]
  | succ n ih =>
    intro w l h
    by_cases ht : throttled (readClock tm w).2 l
    · have hcp : CanPass tm w l = ((readClock tm w).1, l, false) := by
        rw [canPass_of_neg tm w l h, aqquireQuota_of_throttled tm w l ht]
        simp
      simp only [runCanPass, passedBeforeFirstEvalSha, hcp]
      have := ih (readClock tm w).1 l h
      simp [readClock, evalShaCount] at this ⊢
      exact this
    · obtain ⟨cs, hcs⟩ := aqquireQuota_calls_of_not_throttled tm w l ht
      rw [← canPass_world_of_neg tm w l h] at hcs
      simp only [runCanPass, passedBeforeFirstEvalSha, hcs, evalShaCount_drop_append]
      simp [evalShaCount]

/-! ## The claims -/

/-- C2. Local fast path: when `leftQuota >= 0`, `CanPass` returns `true`,
leaves `leftQuota` exactly one lower, and does not touch the outside world: the
call log and the outside state are as before (no `EvalSha`, `ScriptExists` or
`ScriptLoad`), and `lastAqquireRedisTmeStamp` and `scriptSHA1` are unchanged. -/
theorem canPass_local_fast_path (tm : Time σ) (w : World σ) (l : RateLimiter σ)
    (h : l.leftQuota ≥ 0) :
    (CanPass tm w l).2.2 = true ∧
    (CanPass tm w l).2.1.leftQuota = l.leftQuota - 1 ∧
    (CanPass tm w l).1.calls = w.calls ∧
    (CanPass tm w l).1 = w ∧
    (CanPass tm w l).2.1.lastAqquireRedisTmeStamp = l.lastAqquireRedisTmeStamp ∧
    (CanPass tm w l).2.1.scriptSHA1 = l.scriptSHA1 := by
  rw [canPass_of_nonneg tm w l h]
  simp

/-- Witness of C2: a limiter with three tokens left. -/
theorem canPass_local_fast_path_witness :
    (limiterAt stubStore 11 3 0).leftQuota ≥ 0 ∧
    (CanPass msClock world0 (limiterAt stubStore 11 3 0)).2.2 = true ∧
    (CanPass msClock world0 (limiterAt stubStore 11 3 0)).2.1.leftQuota =
      (limiterAt stubStore 11 3 0).leftQuota - 1 ∧
    (CanPass msClock world0 (limiterAt stubStore 11 3 0)).1.calls = world0.calls ∧
    (CanPass msClock world0 (limiterAt stubStore 11 3 0)).1 = world0 ∧
    (CanPass msClock world0 (limiterAt stubStore 11 3 0)).2.1.lastAqquireRedisTmeStamp =
      (limiterAt stubStore 11 3 0).lastAqquireRedisTmeStamp ∧
    (CanPass msClock world0 (limiterAt stubStore 11 3 0)).2.1.scriptSHA1 =
      (limiterAt stubStore 11 3 0).scriptSHA1 :=
  ⟨by decide, canPass_local_fast_path msClock world0 (limiterAt stubStore 11 3 0) (by decide)⟩

/-- C3. Replenish on success: when `leftQuota < 0` and `aqquireQuota` returns
`true`, `CanPass` returns `true` and leaves `leftQuota` at `tokenQuota - 1 = 9`,
whatever the balance was before. -/
theorem canPass_replenish (tm : Time σ) (w : World σ) (l : RateLimiter σ)
    (h : l.leftQuota < 0) (hs : (aqquireQuota tm w l).2.2 = true) :
    (CanPass tm w l).2.2 = true ∧
    (CanPass tm w l).2.1.leftQuota = tokenQuota - 1 ∧
    (CanPass tm w l).2.1.leftQuota = 9 := by
  rw [canPass_of_neg tm w l h]
  simp [hs, tokenQuota]

/-- Witness of C3: a balance of -5, a store that answers 1, a limit of 11. -/
theorem canPass_replenish_witness :
    (limiterAt stubStore 11 (-5) 0).leftQuota < 0 ∧
    (aqquireQuota msClock world0 (limiterAt stubStore 11 (-5) 0)).2.2 = true ∧
    (CanPass msClock world0 (limiterAt stubStore 11 (-5) 0)).2.2 = true ∧
    (CanPass msClock world0 (limiterAt stubStore 11 (-5) 0)).2.1.leftQuota = tokenQuota - 1 ∧
    (CanPass msClock world0 (limiterAt stubStore 11 (-5) 0)).2.1.leftQuota = 9 :=
  ⟨by decide, by decide,
    canPass_replenish msClock world0 (limiterAt stubStore 11 (-5) 0) (by decide) (by decide)⟩

/-- C5. Synchronization decision: on an attempt that is not throttled and in
which the store call (`redisExcuteLua`) returns a value without error,
`aqquireQuota` returns `true` exactly when the value is a Go `int` below
`limitQuotaNumPerSec`. -/
theorem aqquireQuota_decision (tm : Time σ) (w : World σ) (l : RateLimiter σ)
    (hnt : ¬ throttled (readClock tm w).2 l)
    (herr : (redisExcuteLua tm (readClock tm w).1 l).2.2.2 = none) :
    ((aqquireQuota tm w l).2.2 = true ↔
      ∃ v : Int, (redisExcuteLua tm (readClock tm w).1 l).2.2.1 = Value.int v ∧
        v < l.limitQuotaNumPerSec) := by
  have hf := redisExcuteLua_frame tm (readClock tm w).1 l
  unfold aqquireQuota
  simp only [hnt, herr, if_false, ne_eq, not_true_eq_false]
  split
  · rename_i v hv
    simp only [hv, hf.2.1]
    split_ifs with hge
    · simp
      omega
    · simp
      omega
  · rename_i hv
    simp
    intro v hv2
    exact absurd hv2 (hv v)

/-- Witness of C5: the counter store answers 1 to the first call, the limit is 11. -/
theorem aqquireQuota_decision_witness :
    ¬ throttled (readClock msClock world0).2 (limiterAt counterStore 11 (-1) 0) ∧
    (redisExcuteLua msClock (readClock msClock world0).1
      (limiterAt counterStore 11 (-1) 0)).2.2.2 = none ∧
    ((aqquireQuota msClock world0 (limiterAt counterStore 11 (-1) 0)).2.2 = true ↔
      ∃ v : Int, (redisExcuteLua msClock (readClock msClock world0).1
        (limiterAt counterStore 11 (-1) 0)).2.2.1 = Value.int v ∧
        v < (limiterAt counterStore 11 (-1) 0).limitQuotaNumPerSec) :=
  ⟨by decide, by decide,
    aqquireQuota_decision msClock world0 (limiterAt counterStore 11 (-1) 0)
      (by decide) (by decide)⟩

/-- C6. Self-throttle: when `leftQuota < 0` and the clock reading is less than
`redisLimitDuration` (100 microseconds, in nanoseconds) after
`lastAqquireRedisTmeStamp`, `CanPass` returns `false`, makes no client call (the
call log is as before; the only contact with the outside is the one clock
reading) and leaves the whole limiter state unchanged. -/
theorem canPass_self_throttle (tm : Time σ) (w : World σ) (l : RateLimiter σ)
    (h : l.leftQuota < 0)
    (ht : subInt64 (tm.Now w.ext).2 l.lastAqquireRedisTmeStamp < redisLimitDuration) :
    redisLimitDuration = 100000 ∧
    (CanPass tm w l).2.2 = false ∧
    (CanPass tm w l).1.calls = w.calls ∧
    (CanPass tm w l).1.ext = (tm.Now w.ext).1 ∧
    (CanPass tm w l).2.1 = l := by
  have hthr : throttled (readClock tm w).2 l := ht
  rw [canPass_of_neg tm w l h, aqquireQuota_of_throttled tm w l hthr]
  simp [readClock, redisLimitDuration, Microsecond]

/-- Witness of C6: the clock reads 1 s, the timestamp is 10 ns earlier. -/
theorem canPass_self_throttle_witness :
    subInt64 (fastClock.Now world0.ext).2
      (limiterAt stubStore 11 (-1) 999999990).lastAqquireRedisTmeStamp = 10 ∧
    redisLimitDuration = 100000 ∧
    (CanPass fastClock world0 (limiterAt stubStore 11 (-1) 999999990)).2.2 = false ∧
    (CanPass fastClock world0 (limiterAt stubStore 11 (-1) 999999990)).1.calls =
      world0.calls ∧
    (CanPass fastClock world0 (limiterAt stubStore 11 (-1) 999999990)).1.ext =
      (fastClock.Now world0.ext).1 ∧
    (CanPass fastClock world0 (limiterAt stubStore 11 (-1) 999999990)).2.1 =
      limiterAt stubStore 11 (-1) 999999990 :=
  ⟨by decide,
    canPass_self_throttle fastClock world0 (limiterAt stubStore 11 (-1) 999999990)
      (by decide) (by decide)⟩

/-- C4. Fail closed without mutation: when `leftQuota < 0` and the
synchronization fails for any of its causes (throttled, the store call returns
an error, its value is not a Go `int`, or its value is at or above
`limitQuotaNumPerSec`), `CanPass` returns `false` and leaves `leftQuota` as it
was.  Hence, with a store whose every `EvalSha` reports a value at or above the
limit, every one of `n` successive calls made with the tokens exhausted returns
`false` and `leftQuota` is still what it was. -/
theorem canPass_fail_closed (tm : Time σ) (w w2 : World σ) (l l2 : RateLimiter σ) (n : Nat)
    (h : l.leftQuota < 0)
    (hfail : throttled (readClock tm w).2 l ∨
      (redisExcuteLua tm (readClock tm w).1 l).2.2.2 ≠ none ∨
      (∀ v : Int, (redisExcuteLua tm (readClock tm w).1 l).2.2.1 ≠ Value.int v) ∨
      (∃ v : Int, (redisExcuteLua tm (readClock tm w).1 l).2.2.1 = Value.int v ∧
        v ≥ l.limitQuotaNumPerSec))
    (h2 : l2.leftQuota < 0)
    (hstore : ∀ s sha keys, ∃ v : Int,
      (l2.redisClient.EvalSha s sha keys).2 = (Value.int v, none) ∧
        v ≥ l2.limitQuotaNumPerSec) :
    ((CanPass tm w l).2.2 = false ∧ (CanPass tm w l).2.1.leftQuota = l.leftQuota) ∧
    ((runCanPass tm n w2 l2).1.map Outcome.pass = List.replicate n false ∧
      (runCanPass tm n w2 l2).2.2.leftQuota = l2.leftQuota) := by
  refine ⟨?_, runCanPass_of_full tm n w2 l2 h2 hstore⟩
  have hfalse : (aqquireQuota tm w l).2.2 = false := by
    cases hb : (aqquireQuota tm w l).2.2
    · rfl
    · obtain ⟨hnt, herr, v, hv, hlt⟩ := (aqquireQuota_true_iff tm w l).mp hb
      rcases hfail with ht | he | hni | ⟨u, hu, hge⟩
      · exact absurd ht hnt
      · exact absurd herr he
      · exact absurd hv (hni v)
      · rw [hv] at hu
        simp only [Value.int.injEq] at hu
        omega
  rw [canPass_of_sync_false tm w l h hfalse]
  exact ⟨rfl, (aqquireQuota_frame tm w l).1⟩

/-- Witness of C4: a store whose every call errors for the first part, a store
whose counter stands at 100 with a limit of 11 for the second. -/
theorem canPass_fail_closed_witness :
    ((CanPass msClock world0 (limiterAt failingStore 11 (-1) 0)).2.2 = false ∧
      (CanPass msClock world0 (limiterAt failingStore 11 (-1) 0)).2.1.leftQuota =
        (limiterAt failingStore 11 (-1) 0).leftQuota) ∧
    ((runCanPass msClock 5 world0 (limiterAt fullStore 11 (-1) 0)).1.map Outcome.pass =
        List.replicate 5 false ∧
      (runCanPass msClock 5 world0 (limiterAt fullStore 11 (-1) 0)).2.2.leftQuota =
        (limiterAt fullStore 11 (-1) 0).leftQuota) :=
  canPass_fail_closed msClock world0 world0 (limiterAt failingStore 11 (-1) 0)
    (limiterAt fullStore 11 (-1) 0) 5 (by decide) (Or.inr (Or.inl (by decide))) (by decide)
    (fun _ _ _ => ⟨100, rfl, by decide⟩)

/-- C8 on the code: the limiter is built while the store answers, then the
store goes down (every call returns an error).  The first `CanPass` is the
local one; each of the next five reads the clock 10 ns after the one before
(1 s, 1 s + 10 ns, ..., 1 s + 40 ns) and each invokes the store three times
(`EvalSha`, `ScriptExists`, `ScriptLoad`): fifteen store calls inside 40 ns,
with a minimum interval of 100 microseconds.  The timestamp is still 0 at the
end, so the guard of `aqquireQuota` never arms. -/
theorem throttle_unarmed_on_error :
    redisLimitDuration = 100000 ∧
    (fastClock.Now (0, 4)).2 - (fastClock.Now (0, 0)).2 = 40 ∧
    (runFresh fastClock world0 "svc" "m" outageStore 11 6).map
      (fun r => (r.1.map fun o => (o.pass, evalShaCount o.calls, o.calls.length),
        r.2.2.lastAqquireRedisTmeStamp, r.2.1.ext)) =
      some ([(true, 0, 0), (false, 1, 3), (false, 1, 3), (false, 1, 3), (false, 1, 3),
        (false, 1, 3)], 0, (5, 5)) := by
  decide

/-- C9, as the code has it: a limiter fresh from `NewRateLimiter` has no batch
to spend before it synchronizes.  In every run of at least one `CanPass` call,
with any store and any clock, exactly one call returns `true` before the first
call that issues an `EvalSha`: the first call returns `true` and makes no
client call, and the second call issues an `EvalSha` exactly when it is not
throttled. -/
theorem fresh_first_sync (tm : Time σ) (w w1 : World σ) (psm method : String)
    (cli : RedisClient σ) (limit : Int) (l : RateLimiter σ) (n : Nat)
    (hnew : NewRateLimiter tm w psm method (some cli) limit = (w1, some l)) :
    passedBeforeFirstEvalSha (runCanPass tm (n + 1) w1 l).1 = 1 ∧
    (runCanPass tm (n + 1) w1 l).1.head? = some ⟨true, []⟩ ∧
    ((runCanPass tm 2 w1 l).1.map fun o => decide (0 < evalShaCount o.calls)) =
      [false, decide (¬ throttled (tm.Now w1.ext).2 l)] := by
  obtain ⟨h0, hlast, -, -⟩ := newRateLimiter_some tm w w1 psm method (some cli) limit l hnew
  have hcp := canPass_of_nonneg tm w1 l (by omega)
  refine ⟨?_, ?_, ?_⟩
  · simp only [runCanPass, passedBeforeFirstEvalSha, hcp]
    rw [passedBeforeFirstEvalSha_of_neg tm n w1 _ (by simp [h0])]
    simp [evalShaCount]
  · simp [runCanPass, hcp]
  · have hneg : ({ l with leftQuota := l.leftQuota - 1 } : RateLimiter σ).leftQuota < 0 := by
      simp [h0]
    simp only [runCanPass, hcp, List.map_cons, List.map_nil]
    by_cases ht : throttled (tm.Now w1.ext).2 l
    · have ht2 : throttled (readClock tm w1).2
          ({ l with leftQuota := l.leftQuota - 1 } : RateLimiter σ) := ht
      rw [canPass_calls_of_throttled tm w1 _ ht2]
      simp [ht, evalShaCount]
    · have ht2 : ¬ throttled (readClock tm w1).2
          ({ l with leftQuota := l.leftQuota - 1 } : RateLimiter σ) := ht
      obtain ⟨cs, hcs⟩ := aqquireQuota_calls_of_not_throttled tm w1 _ ht2
      rw [← canPass_world_of_neg tm w1 _ hneg] at hcs
      rw [hcs, evalShaCount_drop_append]
      simp [ht, evalShaCount]

/-- Witness of C9: the stub store (always the value 1), limit 11, five calls. -/
theorem fresh_first_sync_witness :
    (NewRateLimiter msClock world0 "svc" "m" (some stubStore) 11).2.isSome = true ∧
    passedBeforeFirstEvalSha (runCanPass msClock (4 + 1)
      ⟨(0, 0), [Call.ScriptLoad limiterScript]⟩ (limiterAt stubStore 11 0 0)).1 = 1 ∧
    (runCanPass msClock (4 + 1) ⟨(0, 0), [Call.ScriptLoad limiterScript]⟩
      (limiterAt stubStore 11 0 0)).1.head? = some ⟨true, []⟩ ∧
    ((runCanPass msClock 2 ⟨(0, 0), [Call.ScriptLoad limiterScript]⟩
      (limiterAt stubStore 11 0 0)).1.map fun o => decide (0 < evalShaCount o.calls)) =
      [false, decide (¬ throttled (msClock.Now (0, 0)).2 (limiterAt stubStore 11 0 0))] :=
  ⟨by decide, fresh_first_sync msClock world0 ⟨(0, 0), [Call.ScriptLoad limiterScript]⟩
    "svc" "m" stubStore 11 (limiterAt stubStore 11 0 0) 4 (by rfl)⟩

/-- C9 fails as stated: on the limiter `NewRateLimiter` returns for the stub
store (always the value 1) with limit 11, the second `CanPass` call already
issues the first `EvalSha`; one call, not ten, was let through before it. -/
theorem fresh_first_sync_counterexample :
    (runFresh msClock world0 "svc" "m" stubStore 11 2).map (fun r => r.1) =
      some [⟨true, []⟩, ⟨true, [Call.EvalSha "sha" ["svc_m"]]⟩] ∧
    (runFresh msClock world0 "svc" "m" stubStore 11 12).map
      (fun r => passedBeforeFirstEvalSha r.1) = some 1 := by
  decide

/-- C10 on the code: on the limiter `NewRateLimiter` returns for the stub
store (always the value 1) with limit 11, calls 2 to 12 of a run all return
`true` on the strength of the one synchronization that call 2 made; the next
`EvalSha` is issued by call 13.  That is eleven calls for one batch of
`tokenQuota = 10`. -/
theorem batch_overrun :
    (runFresh msClock world0 "svc" "m" stubStore 11 13).map
      (fun r => r.1.map fun o => (o.pass, evalShaCount o.calls)) =
      some [(true, 0), (true, 1), (true, 0), (true, 0), (true, 0), (true, 0), (true, 0),
        (true, 0), (true, 0), (true, 0), (true, 0), (true, 0), (true, 1)] ∧
    tokenQuota = 10 := by
  decide

set_option maxRecDepth 100000

/-- C1 on the code: with limit 11 and the counter store (its `k`-th `EvalSha`
returns `k`), all of the first 111 calls on a fresh limiter return `true`, after
10 `EvalSha` calls and 20 clock readings (the last at 20 ms, inside the window);
the documented ceiling is `11 * tokenQuota = 110`. -/
theorem rate_ceiling_overrun :
    (runFresh msClock world0 "svc" "m" counterStore 11 111).map
      (fun r => (passCount r.1, r.2.1.ext)) = some (111, (10, 20)) ∧
    11 * tokenQuota = 110 := by
  decide

/-! ## Invariants of runs -/

theorem canPass_leftQuota_range (tm : Time σ) (w : World σ) (l : RateLimiter σ)
    (hlo : -1 ≤ l.leftQuota) (hhi : l.leftQuota ≤ 9) :
    -1 ≤ (CanPass tm w l).2.1.leftQuota ∧ (CanPass tm w l).2.1.leftQuota ≤ 9 := by
  by_cases h : 0 ≤ l.leftQuota
  · rw [canPass_of_nonneg tm w l h]
    simp only []
    omega
  · rw [canPass_of_neg tm w l (not_le.mp h)]
    split_ifs
    · simp only [(aqquireQuota_frame tm w l).1]
      omega
    · simp [tokenQuota]

theorem runCanPass_leftQuota_range (tm : Time σ) (n : Nat) :
    ∀ (w : World σ) (l : RateLimiter σ), -1 ≤ l.leftQuota → l.leftQuota ≤ 9 →
      -1 ≤ (runCanPass tm n w l).2.2.leftQuota ∧ (runCanPass tm n w l).2.2.leftQuota ≤ 9 := by
  induction n with
  | zero => intro w l hlo hhi; exact ⟨hlo, hhi⟩
  | succ n ih =>
    intro w l hlo hhi
    obtain ⟨h1, h2⟩ := canPass_leftQuota_range tm w l hlo hhi
    exact ih (CanPass tm w l).1 (CanPass tm w l).2.1 h1 h2

theorem passCount_cons (o : Outcome) (os : List Outcome) :
    passCount (o :: os) = (if o.pass = true then 1 else 0) + passCount os := by
  unfold passCount
  by_cases h : o.pass = true
  · simp [List.filter_cons, h]
    omega
  · simp [List.filter_cons, h]

/-- The accounting of a run that starts with a balance of at least -1. -/
theorem passCount_accounting (tm : Time σ) (n : Nat) :
    ∀ (w : World σ) (l : RateLimiter σ), -1 ≤ l.leftQuota →
      (passCount (runCanPass tm n w l).1 : Int) =
        11 * (successfulSyncs tm n w l : Int) - (runCanPass tm n w l).2.2.leftQuota +
          l.leftQuota := by
  induction n with
  | zero => intro w l _; simp [runCanPass, passCount, successfulSyncs]
  | succ n ih =>
    intro w l hlo
    by_cases h : 0 ≤ l.leftQuota
    · have hcp := canPass_of_nonneg tm w l h
      have hrec := ih (CanPass tm w l).1 (CanPass tm w l).2.1 (by rw [hcp]; simp only []; omega)
      have hq : (CanPass tm w l).2.1.leftQuota = l.leftQuota - 1 := by rw [hcp]
      have hp : (CanPass tm w l).2.2 = true := by rw [hcp]
      have hno : ¬ (l.leftQuota < 0 ∧ (aqquireQuota tm w l).2.2 = true) := by
        intro hh; omega
      simp only [runCanPass, successfulSyncs, passCount_cons, hp, hno, if_true, if_false]
      push_cast
      rw [hrec, hq]
      ring
    · have hneg : l.leftQuota < 0 := not_le.mp h
      cases hs : (aqquireQuota tm w l).2.2
      · have hcp := canPass_of_sync_false tm w l hneg hs
        have hq : (CanPass tm w l).2.1.leftQuota = l.leftQuota := by
          rw [hcp]; exact (aqquireQuota_frame tm w l).1
        have hrec := ih (CanPass tm w l).1 (CanPass tm w l).2.1 (by rw [hq]; exact hlo)
        have hp : (CanPass tm w l).2.2 = false := by rw [hcp]
        simp only [runCanPass, successfulSyncs, passCount_cons, hp, hs]
        simp only [Bool.false_eq_true, and_false, if_false]
        push_cast
        rw [hrec, hq]
        ring
      · have hcp := canPass_of_neg tm w l hneg
        simp only [hs, Bool.true_eq_false, if_false] at hcp
        have hq : (CanPass tm w l).2.1.leftQuota = 9 := by rw [hcp]; simp [tokenQuota]
        have hrec := ih (CanPass tm w l).1 (CanPass tm w l).2.1 (by rw [hq]; omega)
        have hp : (CanPass tm w l).2.2 = true := by rw [hcp]
        have hyes : (if l.leftQuota < 0 ∧ (aqquireQuota tm w l).2.2 = true then 1 else 0)
            = 1 := by simp [hneg, hs]
        simp only [runCanPass, successfulSyncs, passCount_cons, hp, hyes, if_true]
        push_cast
        rw [hrec, hq]
        have : l.leftQuota = -1 := by omega
        rw [this]
        ring

/-! ## The claims, continued -/

/-- C11. One extra admission per replenishment, exact accounting: on a limiter
fresh from `NewRateLimiter`, with any store and any clock, after every number
`n` of `CanPass` calls the number of calls that returned `true` equals
`11 * (number of successful synchronizations) - leftQuota`, where
`11 = tokenQuota + 1`. -/
theorem fresh_accounting (tm : Time σ) (w w1 : World σ) (psm method : String)
    (cli : RedisClient σ) (limit : Int) (l : RateLimiter σ) (n : Nat)
    (hnew : NewRateLimiter tm w psm method (some cli) limit = (w1, some l)) :
    (passCount (runCanPass tm n w1 l).1 : Int) =
      11 * (successfulSyncs tm n w1 l : Int) - (runCanPass tm n w1 l).2.2.leftQuota ∧
    tokenQuota + 1 = 11 := by
  obtain ⟨h0, -, -, -⟩ := newRateLimiter_some tm w w1 psm method (some cli) limit l hnew
  have hacc := passCount_accounting tm n w1 l (by omega)
  refine ⟨?_, by simp [tokenQuota]⟩
  rw [hacc, h0]
  ring

/-- Witness of C11: the counter store with limit 3, thirty calls: 23 calls
pass on 2 successful synchronizations, and the balance ends at -1. -/
theorem fresh_accounting_witness :
    passCount (runCanPass msClock 30 ⟨(0, 0), [Call.ScriptLoad limiterScript]⟩
      (limiterAt counterStore 3 0 0)).1 = 23 ∧
    successfulSyncs msClock 30 ⟨(0, 0), [Call.ScriptLoad limiterScript]⟩
      (limiterAt counterStore 3 0 0) = 2 ∧
    ((passCount (runCanPass msClock 30 ⟨(0, 0), [Call.ScriptLoad limiterScript]⟩
      (limiterAt counterStore 3 0 0)).1 : Int) =
      11 * (successfulSyncs msClock 30 ⟨(0, 0), [Call.ScriptLoad limiterScript]⟩
        (limiterAt counterStore 3 0 0) : Int) -
        (runCanPass msClock 30 ⟨(0, 0), [Call.ScriptLoad limiterScript]⟩
          (limiterAt counterStore 3 0 0)).2.2.leftQuota ∧
      tokenQuota + 1 = 11) :=
  ⟨by decide, by decide,
    fresh_accounting msClock world0 ⟨(0, 0), [Call.ScriptLoad limiterScript]⟩ "svc" "m"
      counterStore 3 (limiterAt counterStore 3 0 0) 30 (by rfl)⟩

/-- C16. Token range invariant: on a limiter fresh from `NewRateLimiter`, with
any store and any clock, after every number `k` of `CanPass` calls
`-1 <= leftQuota <= tokenQuota - 1 = 9`; and the next call goes to
`aqquireQuota` only from `leftQuota = -1`: from any other balance it is the
local decrement, which leaves the outside world alone. -/
theorem fresh_token_range (tm : Time σ) (w w1 : World σ) (psm method : String)
    (cli : RedisClient σ) (limit : Int) (l : RateLimiter σ) (k : Nat)
    (hnew : NewRateLimiter tm w psm method (some cli) limit = (w1, some l)) :
    -1 ≤ (runCanPass tm k w1 l).2.2.leftQuota ∧
    (runCanPass tm k w1 l).2.2.leftQuota ≤ tokenQuota - 1 ∧
    tokenQuota - 1 = 9 ∧
    ((runCanPass tm k w1 l).2.2.leftQuota = -1 ∨
      (0 ≤ (runCanPass tm k w1 l).2.2.leftQuota ∧
        CanPass tm (runCanPass tm k w1 l).2.1 (runCanPass tm k w1 l).2.2 =
          ((runCanPass tm k w1 l).2.1,
            { (runCanPass tm k w1 l).2.2 with
              leftQuota := (runCanPass tm k w1 l).2.2.leftQuota - 1 }, true))) := by
  obtain ⟨h0, -, -, -⟩ := newRateLimiter_some tm w w1 psm method (some cli) limit l hnew
  obtain ⟨hlo, hhi⟩ := runCanPass_leftQuota_range tm k w1 l (by omega) (by omega)
  refine ⟨hlo, by simpa [tokenQuota] using hhi, by simp [tokenQuota], ?_⟩
  by_cases h : 0 ≤ (runCanPass tm k w1 l).2.2.leftQuota
  · exact Or.inr ⟨h, canPass_of_nonneg tm _ _ h⟩
  · exact Or.inl (by omega)

/-- Witness of C16: the stub store with limit 11, after 12 calls the balance
is -1 again. -/
theorem fresh_token_range_witness :
    (runCanPass msClock 12 ⟨(0, 0), [Call.ScriptLoad limiterScript]⟩
      (limiterAt stubStore 11 0 0)).2.2.leftQuota = -1 ∧
    (-1 ≤ (runCanPass msClock 12 ⟨(0, 0), [Call.ScriptLoad limiterScript]⟩
      (limiterAt stubStore 11 0 0)).2.2.leftQuota ∧
    (runCanPass msClock 12 ⟨(0, 0), [Call.ScriptLoad limiterScript]⟩
      (limiterAt stubStore 11 0 0)).2.2.leftQuota ≤ tokenQuota - 1 ∧
    tokenQuota - 1 = 9 ∧
    ((runCanPass msClock 12 ⟨(0, 0), [Call.ScriptLoad limiterScript]⟩
      (limiterAt stubStore 11 0 0)).2.2.leftQuota = -1 ∨
      (0 ≤ (runCanPass msClock 12 ⟨(0, 0), [Call.ScriptLoad limiterScript]⟩
        (limiterAt stubStore 11 0 0)).2.2.leftQuota ∧
        CanPass msClock (runCanPass msClock 12 ⟨(0, 0), [Call.ScriptLoad limiterScript]⟩
          (limiterAt stubStore 11 0 0)).2.1
          (runCanPass msClock 12 ⟨(0, 0), [Call.ScriptLoad limiterScript]⟩
            (limiterAt stubStore 11 0 0)).2.2 =
          ((runCanPass msClock 12 ⟨(0, 0), [Call.ScriptLoad limiterScript]⟩
            (limiterAt stubStore 11 0 0)).2.1,
            { (runCanPass msClock 12 ⟨(0, 0), [Call.ScriptLoad limiterScript]⟩
                (limiterAt stubStore 11 0 0)).2.2 with
              leftQuota := (runCanPass msClock 12 ⟨(0, 0), [Call.ScriptLoad limiterScript]⟩
                (limiterAt stubStore 11 0 0)).2.2.leftQuota - 1 }, true)))) :=
  ⟨by decide,
    fresh_token_range msClock world0 ⟨(0, 0), [Call.ScriptLoad limiterScript]⟩ "svc" "m"
      stubStore 11 (limiterAt stubStore 11 0 0) 12 (by rfl)⟩

theorem newRateLimiter_client (tm : Time σ) (w w1 : World σ) (psm method : String)
    (cli : RedisClient σ) (limit : Int) (l : RateLimiter σ)
    (hnew : NewRateLimiter tm w psm method (some cli) limit = (w1, some l)) :
    l.redisClient = cli ∧ l.scriptSHA1 = (cli.ScriptLoad w.ext limiterScript).2.1 := by
  by_cases hbad : limit ≤ 0 ∨ psm.utf8ByteSize = 0
  · simp [NewRateLimiter, hbad] at hnew
  · by_cases herr : (redisloadScript tm cli w limiterScript 0).2.2 = none
    · simp only [NewRateLimiter, hbad, herr, if_false, ne_eq, not_true_eq_false,
        Prod.mk.injEq, Option.some.injEq] at hnew
      rw [← hnew.2]
      exact ⟨rfl, by simp [redisloadScript, callScriptLoad]⟩
    · simp [NewRateLimiter, hbad, herr] at hnew

theorem aqquireQuota_world_of_ok (tm : Time σ) (w : World σ) (l : RateLimiter σ)
    (hnt : ¬ throttled (readClock tm w).2 l)
    (herr : (redisExcuteLua tm (readClock tm w).1 l).2.2.2 = none) :
    (aqquireQuota tm w l).1 = (readClock tm (redisExcuteLua tm (readClock tm w).1 l).1).1 := by
  unfold aqquireQuota
  simp only [hnt, herr, if_false, ne_eq, not_true_eq_false]
  split
  · split_ifs <;> rfl
  · rfl

theorem passCount_of_all_false (os : List Outcome) (n : Nat)
    (h : os.map Outcome.pass = List.replicate n false) : passCount os = 0 := by
  induction os generalizing n with
  | nil => rfl
  | cons o os ih =>
    cases n with
    | zero => simp at h
    | succ n =>
      simp only [List.map_cons, List.replicate_succ, List.cons.injEq] at h
      rw [passCount_cons, ih n h.2]
      simp [h.1]

/-- C17. Effective window budget is `limit - 1`.  Take a counter store: the
state has a count `served` of the `EvalSha` calls of the window, every `EvalSha`
answers `served + 1` as a Go `int` without error and adds one to the count, and
reading the clock leaves the count alone.  Then a synchronization attempt that
is not throttled is the `(served + 1)`-th `EvalSha` call of the window, and it
succeeds exactly when `served + 1 <= limitQuotaNumPerSec - 1`.  With
`limitQuotaNumPerSec = 1`, which `NewRateLimiter` accepts, no synchronization
succeeds, and of any `n + 1` successive calls on the fresh limiter exactly one
returns `true`. -/
theorem counter_window_budget (tm : Time σ) (cli : RedisClient σ) (served : σ → Nat)
    (w w0 w1 : World σ) (l l1 : RateLimiter σ) (psm method : String) (n : Nat)
    (hEval : ∀ s sha keys,
      (cli.EvalSha s sha keys).2 = (Value.int (served s + 1), none) ∧
        served (cli.EvalSha s sha keys).1 = served s + 1)
    (hNow : ∀ s, served (tm.Now s).1 = served s)
    (hcli : l.redisClient = cli)
    (hnt : ¬ throttled (readClock tm w).2 l)
    (hnew : NewRateLimiter tm w0 psm method (some cli) 1 = (w1, some l1)) :
    ((aqquireQuota tm w l).2.2 = true ↔
      (served w.ext : Int) + 1 ≤ l.limitQuotaNumPerSec - 1) ∧
    served (aqquireQuota tm w l).1.ext = served w.ext + 1 ∧
    passCount (runCanPass tm (n + 1) w1 l1).1 = 1 ∧
    successfulSyncs tm (n + 1) w1 l1 = 0 := by
  have hev := hEval (readClock tm w).1.ext l.scriptSHA1 [l.redisKey]
  rw [← hcli] at hev
  have hok : (l.redisClient.EvalSha (readClock tm w).1.ext l.scriptSHA1 [l.redisKey]).2.2
      = none := by rw [hev.1]
  have hlua := redisExcuteLua_of_ok tm (readClock tm w).1 l hok
  have herr : (redisExcuteLua tm (readClock tm w).1 l).2.2.2 = none := by rw [hlua]
  have hserved : served (readClock tm w).1.ext = served w.ext := hNow w.ext
  refine ⟨?_, ?_, ?_⟩
  · rw [aqquireQuota_true_iff tm w l]
    simp only [hnt, not_false_eq_true, herr, true_and]
    rw [hlua]
    simp only [hev.1, Value.int.injEq, hserved]
    constructor
    · rintro ⟨v, hv, hlt⟩
      rw [← hv] at hlt
      omega
    · intro hle
      exact ⟨(served w.ext : Int) + 1, rfl, by omega⟩
  · rw [aqquireQuota_world_of_ok tm w l hnt herr, hlua]
    have h2 := hev.2
    simp only [readClock] at h2
    simp only [readClock, callEvalSha]
    rw [hNow, h2, hNow]
  · obtain ⟨h0, -, hlim, -⟩ := newRateLimiter_some tm w0 w1 psm method (some cli) 1 l1 hnew
    obtain ⟨hc1, -⟩ := newRateLimiter_client tm w0 w1 psm method cli 1 l1 hnew
    have hcp := canPass_of_nonneg tm w1 l1 (by omega)
    have hneg : (CanPass tm w1 l1).2.1.leftQuota < 0 := by rw [hcp]; simp [h0]
    have hstore : ∀ s sha keys, ∃ v : Int,
        ((CanPass tm w1 l1).2.1.redisClient.EvalSha s sha keys).2 = (Value.int v, none) ∧
          (CanPass tm w1 l1).2.1.limitQuotaNumPerSec ≤ v := by
      intro s sha keys
      rw [hcp]
      simp only [hc1, hlim]
      exact ⟨(served s : Int) + 1, by rw [(hEval s sha keys).1], by omega⟩
    obtain ⟨hall, hq⟩ := runCanPass_of_full tm n (CanPass tm w1 l1).1 (CanPass tm w1 l1).2.1
      hneg hstore
    have hpass : passCount (runCanPass tm (n + 1) w1 l1).1 = 1 := by
      simp only [runCanPass, passCount_cons]
      rw [passCount_of_all_false _ n hall, hcp]
      simp
    refine ⟨hpass, ?_⟩
    have hacc := passCount_accounting tm (n + 1) w1 l1 (by omega)
    have hfin : (runCanPass tm (n + 1) w1 l1).2.2.leftQuota = -1 := by
      simp only [runCanPass]
      rw [hq, hcp]
      simp [h0]
    rw [hpass, hfin, h0] at hacc
    push_cast at hacc
    omega

/-- Witness of C17: the counter store counts in the first component of the
state; an attempt at limit 3 on the untouched store, and five calls on the
limiter built with limit 1. -/
theorem counter_window_budget_witness :
    (NewRateLimiter msClock world0 "svc" "m" (some counterStore) 1).2.isSome = true ∧
    ((aqquireQuota msClock world0 (limiterAt counterStore 3 (-1) 0)).2.2 = true ↔
      (((fun s : Nat × Nat => s.1) world0.ext : Nat) : Int) + 1 ≤
        (limiterAt counterStore 3 (-1) 0).limitQuotaNumPerSec - 1) ∧
    (fun s : Nat × Nat => s.1)
        (aqquireQuota msClock world0 (limiterAt counterStore 3 (-1) 0)).1.ext =
      (fun s : Nat × Nat => s.1) world0.ext + 1 ∧
    passCount (runCanPass msClock (4 + 1) ⟨(0, 0), [Call.ScriptLoad limiterScript]⟩
      (limiterAt counterStore 1 0 0)).1 = 1 ∧
    successfulSyncs msClock (4 + 1) ⟨(0, 0), [Call.ScriptLoad limiterScript]⟩
      (limiterAt counterStore 1 0 0) = 0 :=
  ⟨by decide,
    counter_window_budget msClock counterStore (fun s => s.1) world0 world0
      ⟨(0, 0), [Call.ScriptLoad limiterScript]⟩ (limiterAt counterStore 3 (-1) 0)
      (limiterAt counterStore 1 0 0) "svc" "m" 4 (fun _ _ _ => ⟨rfl, rfl⟩) (fun _ => rfl) rfl
      (by decide) (by rfl)⟩

/-! ## The steps of `redisExcuteLua` -/

theorem redisExcuteLua_steps (tm : Time σ) (w : World σ) (l : RateLimiter σ) :
    redisExcuteLua tm w l =
      if (firstEvalSha w l).2.2 = none then
        ((firstEvalSha w l).1, l, ((firstEvalSha w l).2.1, none))
      else if notConfirmed w l then
        if (reRegister tm w l).2.2 ≠ none then
          ((reRegister tm w l).1, l, (firstEvalSha w l).2)
        else
          ((retryEvalSha tm w l).1, { l with scriptSHA1 := (reRegister tm w l).2.1 },
            (retryEvalSha tm w l).2)
      else ((existsCheck w l).1, l, (firstEvalSha w l).2) := by
  rfl

theorem firstEvalSha_calls (w : World σ) (l : RateLimiter σ) :
    (firstEvalSha w l).1.calls = w.calls ++ [Call.EvalSha l.scriptSHA1 [l.redisKey]] := by
  rfl

theorem existsCheck_calls (w : World σ) (l : RateLimiter σ) :
    (existsCheck w l).1.calls =
      w.calls ++ [Call.EvalSha l.scriptSHA1 [l.redisKey], Call.ScriptExists [l.scriptSHA1]] := by
  simp [existsCheck, callScriptExists, firstEvalSha_calls]

theorem reRegister_calls (tm : Time σ) (w : World σ) (l : RateLimiter σ) :
    (reRegister tm w l).1.calls =
      w.calls ++ [Call.EvalSha l.scriptSHA1 [l.redisKey], Call.ScriptExists [l.scriptSHA1],
        Call.ScriptLoad limiterScript] := by
  simp [reRegister, redisloadScript, callScriptLoad, existsCheck_calls]

theorem retryEvalSha_calls (tm : Time σ) (w : World σ) (l : RateLimiter σ) :
    (retryEvalSha tm w l).1.calls =
      w.calls ++ [Call.EvalSha l.scriptSHA1 [l.redisKey], Call.ScriptExists [l.scriptSHA1],
        Call.ScriptLoad limiterScript,
        Call.EvalSha (reRegister tm w l).2.1 [l.redisKey]] := by
  simp [retryEvalSha, callEvalSha, reRegister_calls]

/-- The client calls one `redisExcuteLua` makes, in order. -/
theorem redisExcuteLua_delta (tm : Time σ) (w : World σ) (l : RateLimiter σ) :
    (redisExcuteLua tm w l).1.calls.drop w.calls.length =
      if (firstEvalSha w l).2.2 = none then [Call.EvalSha l.scriptSHA1 [l.redisKey]]
      else if notConfirmed w l then
        if (reRegister tm w l).2.2 ≠ none then
          [Call.EvalSha l.scriptSHA1 [l.redisKey], Call.ScriptExists [l.scriptSHA1],
            Call.ScriptLoad limiterScript]
        else
          [Call.EvalSha l.scriptSHA1 [l.redisKey], Call.ScriptExists [l.scriptSHA1],
            Call.ScriptLoad limiterScript,
            Call.EvalSha (reRegister tm w l).2.1 [l.redisKey]]
      else [Call.EvalSha l.scriptSHA1 [l.redisKey], Call.ScriptExists [l.scriptSHA1]] := by
  rw [redisExcuteLua_steps]
  split_ifs
  · simp [firstEvalSha_calls]
  · simp [reRegister_calls]
  · simp [retryEvalSha_calls]
  · simp [existsCheck_calls]

/-- The client calls one `CanPass` makes, in order. -/
theorem canPass_delta (tm : Time σ) (w : World σ) (l : RateLimiter σ) :
    (CanPass tm w l).1.calls.drop w.calls.length =
      if 0 ≤ l.leftQuota then []
      else if throttled (readClock tm w).2 l then []
      else (redisExcuteLua tm (readClock tm w).1 l).1.calls.drop w.calls.length := by
  by_cases h : 0 ≤ l.leftQuota
  · rw [canPass_of_nonneg tm w l h]
    simp [h]
  · rw [canPass_world_of_neg tm w l (not_le.mp h)]
    simp only [h, if_false]
    by_cases ht : throttled (readClock tm w).2 l
    · rw [aqquireQuota_of_throttled tm w l ht]
      simp only [ht, if_true]
      simp [readClock]
    · simp only [ht, if_false]
      unfold aqquireQuota
      simp only [ht, if_false]
      split_ifs
      · rfl
      · split
        · split_ifs <;> rfl
        · rfl

theorem notConfirmed_iff (w : World σ) (l : RateLimiter σ) :
    notConfirmed w l ↔
      ((existsCheck w l).2.2 ≠ none ∨ (existsCheck w l).2.1 = [] ∨
        (existsCheck w l).2.1.head? = some false) := by
  unfold notConfirmed
  cases hl : (existsCheck w l).2.1 with
  | nil => simp
  | cons b bs => cases b <;> simp

theorem aqquireQuota_of_store_error (tm : Time σ) (w : World σ) (l : RateLimiter σ)
    (hnt : ¬ throttled (readClock tm w).2 l)
    (herr : (redisExcuteLua tm (readClock tm w).1 l).2.2.2 ≠ none) :
    aqquireQuota tm w l =
      ((redisExcuteLua tm (readClock tm w).1 l).1,
        (redisExcuteLua tm (readClock tm w).1 l).2.1, false) := by
  unfold aqquireQuota
  simp [hnt, herr]

theorem aqquireQuota_calls_eq (tm : Time σ) (w : World σ) (l : RateLimiter σ)
    (hnt : ¬ throttled (readClock tm w).2 l) :
    (aqquireQuota tm w l).1.calls = (redisExcuteLua tm (readClock tm w).1 l).1.calls := by
  unfold aqquireQuota
  simp only [hnt, if_false]
  split_ifs
  · rfl
  · split
    · split_ifs <;> rfl
    · rfl

theorem aqquireQuota_scriptSHA1 (tm : Time σ) (w : World σ) (l : RateLimiter σ)
    (hnt : ¬ throttled (readClock tm w).2 l) :
    (aqquireQuota tm w l).2.1.scriptSHA1 =
      (redisExcuteLua tm (readClock tm w).1 l).2.1.scriptSHA1 := by
  unfold aqquireQuota
  simp only [hnt, if_false]
  split_ifs
  · rfl
  · split
    · split_ifs <;> rfl
    · rfl

theorem canPass_scriptSHA1_of_neg (tm : Time σ) (w : World σ) (l : RateLimiter σ)
    (h : l.leftQuota < 0) :
    (CanPass tm w l).2.1.scriptSHA1 = (aqquireQuota tm w l).2.1.scriptSHA1 := by
  rw [canPass_of_neg tm w l h]
  split_ifs <;> rfl

theorem canPass_pass_of_neg (tm : Time σ) (w : World σ) (l : RateLimiter σ)
    (h : l.leftQuota < 0) : (CanPass tm w l).2.2 = (aqquireQuota tm w l).2.2 := by
  rw [canPass_of_neg tm w l h]
  cases hs : (aqquireQuota tm w l).2.2 <;> simp

/-- C12, as the code has it: take a call with `leftQuota < 0` that is not
throttled, whose first `EvalSha` returns an error and whose `ScriptExists`
query reports `false` for the current handle.  If the `ScriptLoad` that follows
returns without error, the limiter stores the handle it returned in
`scriptSHA1` and retries `EvalSha` exactly once, with that handle: the client
calls of the `CanPass` are `EvalSha`, `ScriptExists`, `ScriptLoad`, `EvalSha`,
in that order.  `CanPass` then returns `true` exactly when the retry returns,
without error, a Go `int` below the limit. -/
theorem recovery_retry (tm : Time σ) (w : World σ) (l : RateLimiter σ)
    (h : l.leftQuota < 0)
    (hnt : ¬ throttled (readClock tm w).2 l)
    (heval : (firstEvalSha (readClock tm w).1 l).2.2 ≠ none)
    (hexists : (existsCheck (readClock tm w).1 l).2.1.head? = some false)
    (hload : (reRegister tm (readClock tm w).1 l).2.2 = none) :
    (CanPass tm w l).1.calls =
      w.calls ++ [Call.EvalSha l.scriptSHA1 [l.redisKey], Call.ScriptExists [l.scriptSHA1],
        Call.ScriptLoad limiterScript,
        Call.EvalSha (reRegister tm (readClock tm w).1 l).2.1 [l.redisKey]] ∧
    (reRegister tm (readClock tm w).1 l).2.1 =
      (l.redisClient.ScriptLoad (existsCheck (readClock tm w).1 l).1.ext limiterScript).2.1 ∧
    (CanPass tm w l).2.1.scriptSHA1 = (reRegister tm (readClock tm w).1 l).2.1 ∧
    ((CanPass tm w l).2.2 = true ↔
      (retryEvalSha tm (readClock tm w).1 l).2.2 = none ∧
        ∃ v : Int, (retryEvalSha tm (readClock tm w).1 l).2.1 = Value.int v ∧
          v < l.limitQuotaNumPerSec) := by
  have hnc : notConfirmed (readClock tm w).1 l :=
    (notConfirmed_iff _ l).mpr (Or.inr (Or.inr hexists))
  have hlua : redisExcuteLua tm (readClock tm w).1 l =
      ((retryEvalSha tm (readClock tm w).1 l).1,
        { l with scriptSHA1 := (reRegister tm (readClock tm w).1 l).2.1 },
        (retryEvalSha tm (readClock tm w).1 l).2) := by
    rw [redisExcuteLua_steps]
    simp [heval, hnc, hload]
  refine ⟨?_, ?_, ?_, ?_⟩
  · rw [canPass_world_of_neg tm w l h, aqquireQuota_calls_eq tm w l hnt, hlua]
    simp only [retryEvalSha_calls]
    rfl
  · simp [reRegister, redisloadScript, callScriptLoad]
  · rw [canPass_scriptSHA1_of_neg tm w l h, aqquireQuota_scriptSHA1 tm w l hnt, hlua]
  · rw [canPass_pass_of_neg tm w l h, aqquireQuota_true_iff tm w l, hlua]
    simp [hnt]

/-- Witness of C12: a store that lost its scripts in a restart and registers
the handle `sha2`; the retry with `sha2` answers 1 and the call returns `true`. -/
theorem recovery_retry_witness :
    (CanPass msClock world0 (limiterAt lostScriptStore 11 (-1) 0)).2.2 = true ∧
    (CanPass msClock world0 (limiterAt lostScriptStore 11 (-1) 0)).2.1.scriptSHA1 = "sha2" ∧
    (CanPass msClock world0 (limiterAt lostScriptStore 11 (-1) 0)).1.calls =
      world0.calls ++ [Call.EvalSha (limiterAt lostScriptStore 11 (-1) 0).scriptSHA1
          [(limiterAt lostScriptStore 11 (-1) 0).redisKey],
        Call.ScriptExists [(limiterAt lostScriptStore 11 (-1) 0).scriptSHA1],
        Call.ScriptLoad limiterScript,
        Call.EvalSha (reRegister msClock (readClock msClock world0).1
          (limiterAt lostScriptStore 11 (-1) 0)).2.1
          [(limiterAt lostScriptStore 11 (-1) 0).redisKey]] :=
  ⟨by decide, by decide,
    (recovery_retry msClock world0 (limiterAt lostScriptStore 11 (-1) 0) (by decide)
      (by decide) (by decide) (by decide) (by decide)).1⟩

/-- C12 fails as stated: the store has lost its scripts and its `ScriptLoad`
fails.  The first `EvalSha` returns an error, `ScriptExists` reports `false`
for the handle, and `ScriptLoad` is called; its error ends the recovery: the
handle `sha` stays in `scriptSHA1` and there is no second `EvalSha`. -/
theorem recovery_retry_counterexample :
    (limiterAt flakyLoadStore 11 (-1) 0).leftQuota < 0 ∧
    ¬ throttled (readClock msClock world0).2 (limiterAt flakyLoadStore 11 (-1) 0) ∧
    (firstEvalSha (readClock msClock world0).1 (limiterAt flakyLoadStore 11 (-1) 0)).2 =
      (Value.nil, some "NOSCRIPT") ∧
    (existsCheck (readClock msClock world0).1 (limiterAt flakyLoadStore 11 (-1) 0)).2 =
      ([false], none) ∧
    (reRegister msClock (readClock msClock world0).1
      (limiterAt flakyLoadStore 11 (-1) 0)).2 = ("", some "timeout") ∧
    (CanPass msClock world0 (limiterAt flakyLoadStore 11 (-1) 0)).1.calls =
      [Call.EvalSha "sha" ["svc_m"], Call.ScriptExists ["sha"],
        Call.ScriptLoad limiterScript] ∧
    (CanPass msClock world0 (limiterAt flakyLoadStore 11 (-1) 0)).2.1.scriptSHA1 = "sha" ∧
    (CanPass msClock world0 (limiterAt flakyLoadStore 11 (-1) 0)).2.2 = false := by
  decide

/-- C13 on the code: the store has lost its scripts, its first `ScriptLoad`
fails and its second would register the handle `sha2`.  The recovery inside
`CanPass` calls `ScriptLoad` once (`redisloadScript` is given `retryTimes = 0`),
gives up, keeps the handle `sha`, makes no second `EvalSha` and returns `false`.
Given `loadScriptRetryTimes = 3`, the same `redisloadScript` at the same point
returns `sha2` from its second `ScriptLoad`. -/
theorem recovery_without_retry :
    loadScriptRetryTimes = 3 ∧
    scriptLoadCount (CanPass msClock world0 (limiterAt flakyLoadStore 11 (-1) 0)).1.calls = 1 ∧
    evalShaCount (CanPass msClock world0 (limiterAt flakyLoadStore 11 (-1) 0)).1.calls = 1 ∧
    (CanPass msClock world0 (limiterAt flakyLoadStore 11 (-1) 0)).2.2 = false ∧
    (CanPass msClock world0 (limiterAt flakyLoadStore 11 (-1) 0)).2.1.scriptSHA1 = "sha" ∧
    (redisloadScript msClock flakyLoadStore
      (existsCheck (readClock msClock world0).1 (limiterAt flakyLoadStore 11 (-1) 0)).1
      limiterScript loadScriptRetryTimes).2 = ("sha2", none) ∧
    scriptLoadCount (redisloadScript msClock flakyLoadStore
      (existsCheck (readClock msClock world0).1 (limiterAt flakyLoadStore 11 (-1) 0)).1
      limiterScript loadScriptRetryTimes).1.calls = 2 := by
  decide

/-- C14. Failed re-registration fails the attempt: take a call with
`leftQuota < 0` that is not throttled, whose first `EvalSha` returns an error,
whose `ScriptExists` query does not confirm the handle, and whose
re-registration `ScriptLoad` returns an error too.  Then `redisExcuteLua`
returns the value and error of the first `EvalSha`, the client calls are
`EvalSha`, `ScriptExists`, `ScriptLoad` (no second `EvalSha`), `scriptSHA1` is
unchanged, `aqquireQuota` and `CanPass` return `false`, and `CanPass` leaves
`leftQuota`, and the whole limiter, as it was. -/
theorem recovery_failed_registration (tm : Time σ) (w : World σ) (l : RateLimiter σ)
    (h : l.leftQuota < 0)
    (hnt : ¬ throttled (readClock tm w).2 l)
    (heval : (firstEvalSha (readClock tm w).1 l).2.2 ≠ none)
    (hnc : notConfirmed (readClock tm w).1 l)
    (hload : (reRegister tm (readClock tm w).1 l).2.2 ≠ none) :
    (redisExcuteLua tm (readClock tm w).1 l).2.2 = (firstEvalSha (readClock tm w).1 l).2 ∧
    (CanPass tm w l).1.calls =
      w.calls ++ [Call.EvalSha l.scriptSHA1 [l.redisKey], Call.ScriptExists [l.scriptSHA1],
        Call.ScriptLoad limiterScript] ∧
    evalShaCount ((CanPass tm w l).1.calls.drop w.calls.length) = 1 ∧
    (redisExcuteLua tm (readClock tm w).1 l).2.1.scriptSHA1 = l.scriptSHA1 ∧
    (aqquireQuota tm w l).2.2 = false ∧
    (CanPass tm w l).2.2 = false ∧
    (CanPass tm w l).2.1.leftQuota = l.leftQuota ∧
    (CanPass tm w l).2.1 = l := by
  have hlua : redisExcuteLua tm (readClock tm w).1 l =
      ((reRegister tm (readClock tm w).1 l).1, l, (firstEvalSha (readClock tm w).1 l).2) := by
    rw [redisExcuteLua_steps]
    simp [heval, hnc, hload]
  have herr : (redisExcuteLua tm (readClock tm w).1 l).2.2.2 ≠ none := by
    rw [hlua]; exact heval
  have haq := aqquireQuota_of_store_error tm w l hnt herr
  have hfalse : (aqquireQuota tm w l).2.2 = false := by rw [haq]
  have hcp := canPass_of_sync_false tm w l h hfalse
  have hcalls : (CanPass tm w l).1.calls =
      w.calls ++ [Call.EvalSha l.scriptSHA1 [l.redisKey], Call.ScriptExists [l.scriptSHA1],
        Call.ScriptLoad limiterScript] := by
    rw [hcp, haq, hlua]
    simp only [reRegister_calls]
    rfl
  refine ⟨by rw [hlua], hcalls, ?_, by rw [hlua], hfalse, by rw [hcp], ?_, ?_⟩
  · rw [hcalls]
    simp [evalShaCount]
  · rw [hcp, haq, hlua]
  · rw [hcp, haq, hlua]

/-- Witness of C14: a store whose every call returns an error. -/
theorem recovery_failed_registration_witness :
    (firstEvalSha (readClock msClock world0).1 (limiterAt failingStore 11 (-1) 0)).2 =
      (Value.nil, some "connection refused") ∧
    (redisExcuteLua msClock (readClock msClock world0).1
      (limiterAt failingStore 11 (-1) 0)).2.2 =
      (firstEvalSha (readClock msClock world0).1 (limiterAt failingStore 11 (-1) 0)).2 ∧
    (CanPass msClock world0 (limiterAt failingStore 11 (-1) 0)).1.calls =
      world0.calls ++ [Call.EvalSha (limiterAt failingStore 11 (-1) 0).scriptSHA1
          [(limiterAt failingStore 11 (-1) 0).redisKey],
        Call.ScriptExists [(limiterAt failingStore 11 (-1) 0).scriptSHA1],
        Call.ScriptLoad limiterScript] ∧
    evalShaCount ((CanPass msClock world0 (limiterAt failingStore 11 (-1) 0)).1.calls.drop
      world0.calls.length) = 1 ∧
    (redisExcuteLua msClock (readClock msClock world0).1
      (limiterAt failingStore 11 (-1) 0)).2.1.scriptSHA1 =
      (limiterAt failingStore 11 (-1) 0).scriptSHA1 ∧
    (aqquireQuota msClock world0 (limiterAt failingStore 11 (-1) 0)).2.2 = false ∧
    (CanPass msClock world0 (limiterAt failingStore 11 (-1) 0)).2.2 = false ∧
    (CanPass msClock world0 (limiterAt failingStore 11 (-1) 0)).2.1.leftQuota =
      (limiterAt failingStore 11 (-1) 0).leftQuota ∧
    (CanPass msClock world0 (limiterAt failingStore 11 (-1) 0)).2.1 =
      limiterAt failingStore 11 (-1) 0 :=
  ⟨by decide,
    recovery_failed_registration msClock world0 (limiterAt failingStore 11 (-1) 0)
      (by decide) (by decide) (by decide) (by decide) (by decide)⟩

/-- C18. Recovery trigger.  (1) `redisExcuteLua` calls `ScriptLoad` exactly
when the first `EvalSha` returned an error and the `ScriptExists` query did not
confirm the handle: it returned an error, an empty list, or `false` as its
first element.  (2) When the first `EvalSha` returns an error and
`ScriptExists` returns `true` for the handle without error, the value and error
of the first `EvalSha` are returned after these two calls only.  (3) One
`CanPass` makes at most two `EvalSha` calls, one `ScriptExists` call and one
`ScriptLoad` call. -/
theorem recovery_trigger (tm : Time σ) (w w2 w3 : World σ) (l l2 l3 : RateLimiter σ)
    (heval : (firstEvalSha w2 l2).2.2 ≠ none)
    (hok : (existsCheck w2 l2).2.2 = none)
    (htrue : (existsCheck w2 l2).2.1.head? = some true) :
    (0 < scriptLoadCount ((redisExcuteLua tm w l).1.calls.drop w.calls.length) ↔
      (firstEvalSha w l).2.2 ≠ none ∧
        ((existsCheck w l).2.2 ≠ none ∨ (existsCheck w l).2.1 = [] ∨
          (existsCheck w l).2.1.head? = some false)) ∧
    ((redisExcuteLua tm w2 l2).2.2 = (firstEvalSha w2 l2).2 ∧
      (redisExcuteLua tm w2 l2).1.calls.drop w2.calls.length =
        [Call.EvalSha l2.scriptSHA1 [l2.redisKey], Call.ScriptExists [l2.scriptSHA1]]) ∧
    (evalShaCount ((CanPass tm w3 l3).1.calls.drop w3.calls.length) ≤ 2 ∧
      scriptExistsCount ((CanPass tm w3 l3).1.calls.drop w3.calls.length) ≤ 1 ∧
      scriptLoadCount ((CanPass tm w3 l3).1.calls.drop w3.calls.length) ≤ 1) := by
  refine ⟨?_, ?_, ?_⟩
  · rw [redisExcuteLua_delta, ← notConfirmed_iff]
    split_ifs <;> simp_all [scriptLoadCount]
  · have hc : ¬ notConfirmed w2 l2 := by
      rw [notConfirmed_iff]
      intro hh
      rcases hh with he | hn | hf
      · exact he hok
      · rw [hn] at htrue; simp at htrue
      · rw [hf] at htrue; simp at htrue
    refine ⟨?_, ?_⟩
    · rw [redisExcuteLua_steps]
      simp [heval, hc]
    · rw [redisExcuteLua_delta]
      simp [heval, hc]
  · rw [canPass_delta]
    split_ifs with h1 h2
    · simp [evalShaCount, scriptExistsCount, scriptLoadCount]
    · simp [evalShaCount, scriptExistsCount, scriptLoadCount]
    · have hlen : w3.calls.length = (readClock tm w3).1.calls.length := rfl
      rw [hlen, redisExcuteLua_delta]
      split_ifs <;> simp [evalShaCount, scriptExistsCount, scriptLoadCount]

/-- Witness of C18: at a store that confirms every handle but whose `EvalSha`
fails, the error comes back after `EvalSha` and `ScriptExists`; at a store that
lost its scripts, one `CanPass` makes two `EvalSha` calls, one `ScriptExists`
and one `ScriptLoad`. -/
theorem recovery_trigger_witness :
    (firstEvalSha world0 (limiterAt confirmingStore 11 (-1) 0)).2 =
      (Value.nil, some "BUSY") ∧
    (existsCheck world0 (limiterAt confirmingStore 11 (-1) 0)).2 = ([true], none) ∧
    (CanPass msClock world0 (limiterAt lostScriptStore 11 (-1) 0)).1.calls.drop
      world0.calls.length =
      [Call.EvalSha "sha" ["svc_m"], Call.ScriptExists ["sha"], Call.ScriptLoad limiterScript,
        Call.EvalSha "sha2" ["svc_m"]] ∧
    ((0 < scriptLoadCount ((redisExcuteLua msClock world0
        (limiterAt lostScriptStore 11 (-1) 0)).1.calls.drop world0.calls.length) ↔
      (firstEvalSha world0 (limiterAt lostScriptStore 11 (-1) 0)).2.2 ≠ none ∧
        ((existsCheck world0 (limiterAt lostScriptStore 11 (-1) 0)).2.2 ≠ none ∨
          (existsCheck world0 (limiterAt lostScriptStore 11 (-1) 0)).2.1 = [] ∨
          (existsCheck world0 (limiterAt lostScriptStore 11 (-1) 0)).2.1.head? =
            some false)) ∧
    ((redisExcuteLua msClock world0 (limiterAt confirmingStore 11 (-1) 0)).2.2 =
        (firstEvalSha world0 (limiterAt confirmingStore 11 (-1) 0)).2 ∧
      (redisExcuteLua msClock world0 (limiterAt confirmingStore 11 (-1) 0)).1.calls.drop
        world0.calls.length =
        [Call.EvalSha (limiterAt confirmingStore 11 (-1) 0).scriptSHA1
            [(limiterAt confirmingStore 11 (-1) 0).redisKey],
          Call.ScriptExists [(limiterAt confirmingStore 11 (-1) 0).scriptSHA1]]) ∧
    (evalShaCount ((CanPass msClock world0
        (limiterAt lostScriptStore 11 (-1) 0)).1.calls.drop world0.calls.length) ≤ 2 ∧
      scriptExistsCount ((CanPass msClock world0
        (limiterAt lostScriptStore 11 (-1) 0)).1.calls.drop world0.calls.length) ≤ 1 ∧
      scriptLoadCount ((CanPass msClock world0
        (limiterAt lostScriptStore 11 (-1) 0)).1.calls.drop world0.calls.length) ≤ 1)) :=
  ⟨by decide, by decide, by decide,
    recovery_trigger msClock world0 world0 world0 (limiterAt lostScriptStore 11 (-1) 0)
      (limiterAt confirmingStore 11 (-1) 0) (limiterAt lostScriptStore 11 (-1) 0)
      (by decide) (by decide) (by decide)⟩

theorem utf8ByteSize_eq_zero_iff (psm : String) : psm.utf8ByteSize = 0 ↔ psm = "" := by
  cases psm with
  | mk cs =>
    cases cs with
    | nil => simp [String.utf8ByteSize, String.utf8ByteSize.go]
    | cons c cs =>
      simp only [String.utf8ByteSize, String.utf8ByteSize.go]
      have hpos := Char.utf8Size_pos c
      constructor
      · omega
      · intro h
        exact absurd (congrArg String.data h) (by simp)

theorem newRateLimiter_of_bad (tm : Time σ) (w : World σ) (psm method : String)
    (cli : Option (RedisClient σ)) (limit : Int)
    (hbad : cli = none ∨ limit ≤ 0 ∨ psm = "") :
    NewRateLimiter tm w psm method cli limit = (w, none) := by
  cases cli with
  | none => rfl
  | some c =>
    have hb : limit ≤ 0 ∨ psm.utf8ByteSize = 0 := by
      rcases hbad with h | h | h
      · simp at h
      · exact Or.inl h
      · exact Or.inr ((utf8ByteSize_eq_zero_iff psm).mpr h)
    simp [NewRateLimiter, hb]

theorem newRateLimiter_of_good (tm : Time σ) (w : World σ) (psm method : String)
    (c : RedisClient σ) (limit : Int) (hlimit : 0 < limit) (hpsm : psm ≠ "") :
    NewRateLimiter tm w psm method (some c) limit =
      (⟨(c.ScriptLoad w.ext limiterScript).1, w.calls ++ [Call.ScriptLoad limiterScript]⟩,
        if (c.ScriptLoad w.ext limiterScript).2.2 = none then
          some
            { redisKey := psm ++ "_" ++ method
              redisClient := c
              limitQuotaNumPerSec := limit
              leftQuota := 0
              scriptSHA1 := (c.ScriptLoad w.ext limiterScript).2.1
              lastAqquireRedisTmeStamp := 0 }
        else none) := by
  have hb : ¬ (limit ≤ 0 ∨ psm.utf8ByteSize = 0) := by
    rw [utf8ByteSize_eq_zero_iff]
    intro h
    rcases h with h | h
    · omega
    · exact hpsm h
  by_cases herr : (c.ScriptLoad w.ext limiterScript).2.2 = none
  · simp [NewRateLimiter, hb, redisloadScript, callScriptLoad, herr]
  · simp [NewRateLimiter, hb, redisloadScript, callScriptLoad, herr]

/-- C15. Construction.  (1) `NewRateLimiter` returns no instance exactly when
the client is nil, `limit <= 0`, `psm` is empty, or the `ScriptLoad` call
returns an error.  (2) With a nil client, a non-positive limit or an empty
`psm` the outside world, call log included, is untouched.  (3) Otherwise the
client is called exactly once, with `ScriptLoad` of the script, and when that
returns without error the result is the limiter with
`redisKey = psm + "_" + method`, the given limit, `leftQuota = 0`,
`lastAqquireRedisTmeStamp = 0` and the returned handle in `scriptSHA1`. -/
theorem newRateLimiter_spec (tm : Time σ) (w : World σ) (psm method : String)
    (cli : Option (RedisClient σ)) (limit : Int)
    (psm2 method2 : String) (cli2 : Option (RedisClient σ)) (limit2 : Int)
    (psm3 method3 : String) (c : RedisClient σ) (limit3 : Int)
    (hbad : cli2 = none ∨ limit2 ≤ 0 ∨ psm2 = "")
    (hlimit : 0 < limit3) (hpsm : psm3 ≠ "") :
    ((NewRateLimiter tm w psm method cli limit).2 = none ↔
      cli = none ∨ limit ≤ 0 ∨ psm = "" ∨
        ∃ c1, cli = some c1 ∧ (c1.ScriptLoad w.ext limiterScript).2.2 ≠ none) ∧
    (NewRateLimiter tm w psm2 method2 cli2 limit2).1 = w ∧
    (NewRateLimiter tm w psm3 method3 (some c) limit3).1.calls =
      w.calls ++ [Call.ScriptLoad limiterScript] ∧
    (NewRateLimiter tm w psm3 method3 (some c) limit3).2 =
      if (c.ScriptLoad w.ext limiterScript).2.2 = none then
        some
          { redisKey := psm3 ++ "_" ++ method3
            redisClient := c
            limitQuotaNumPerSec := limit3
            leftQuota := 0
            scriptSHA1 := (c.ScriptLoad w.ext limiterScript).2.1
            lastAqquireRedisTmeStamp := 0 }
      else none := by
  refine ⟨?_, ?_, ?_, ?_⟩
  · by_cases hb : cli = none ∨ limit ≤ 0 ∨ psm = ""
    · rw [newRateLimiter_of_bad tm w psm method cli limit hb]
      simp only [true_iff]
      rcases hb with h | h | h
      · exact Or.inl h
      · exact Or.inr (Or.inl h)
      · exact Or.inr (Or.inr (Or.inl h))
    · cases cli with
      | none => exact absurd (Or.inl rfl) hb
      | some c1 =>
        have hl : 0 < limit := by
          by_contra hh
          exact hb (Or.inr (Or.inl (not_lt.mp hh)))
        have hp : psm ≠ "" := fun hh => hb (Or.inr (Or.inr hh))
        rw [newRateLimiter_of_good tm w psm method c1 limit hl hp]
        by_cases herr : (c1.ScriptLoad w.ext limiterScript).2.2 = none
        · simp only [herr, if_true]
          constructor
          · intro hh; simp at hh
          · intro hh
            rcases hh with h | h | h | ⟨c2, hc2, he⟩
            · simp at h
            · omega
            · exact absurd h hp
            · simp only [Option.some.injEq] at hc2
              rw [← hc2] at he
              exact absurd herr he
        · simp only [herr, if_false, true_iff]
          exact Or.inr (Or.inr (Or.inr ⟨c1, rfl, herr⟩))
  · rw [newRateLimiter_of_bad tm w psm2 method2 cli2 limit2 hbad]
  · rw [newRateLimiter_of_good tm w psm3 method3 c limit3 hlimit hpsm]
  · rw [newRateLimiter_of_good tm w psm3 method3 c limit3 hlimit hpsm]

/-- Witness of C15: a limit of 0 for the refused construction, the stub store
with limit 11 and service `svc` for the accepted one. -/
theorem newRateLimiter_spec_witness :
    (NewRateLimiter msClock world0 "svc" "m" (some failingStore) 11).2.isNone = true ∧
    (NewRateLimiter msClock world0 "svc" "m" (some stubStore) 11).2.isSome = true ∧
    (((NewRateLimiter msClock world0 "svc" "m" (some failingStore) 11).2 = none ↔
      some failingStore = none ∨ (11 : Int) ≤ 0 ∨ "svc" = "" ∨
        ∃ c1, some failingStore = some c1 ∧
          (c1.ScriptLoad world0.ext limiterScript).2.2 ≠ none) ∧
    (NewRateLimiter msClock world0 "svc" "m" (some stubStore) 0).1 = world0 ∧
    (NewRateLimiter msClock world0 "svc" "m" (some stubStore) 11).1.calls =
      world0.calls ++ [Call.ScriptLoad limiterScript] ∧
    (NewRateLimiter msClock world0 "svc" "m" (some stubStore) 11).2 =
      if (stubStore.ScriptLoad world0.ext limiterScript).2.2 = none then
        some
          { redisKey := "svc" ++ "_" ++ "m"
            redisClient := stubStore
            limitQuotaNumPerSec := 11
            leftQuota := 0
            scriptSHA1 := (stubStore.ScriptLoad world0.ext limiterScript).2.1
            lastAqquireRedisTmeStamp := 0 }
      else none) :=
  ⟨by decide, by decide,
    newRateLimiter_spec msClock world0 "svc" "m" (some failingStore) 11
      "svc" "m" (some stubStore) 0 "svc" "m" stubStore 11
      (Or.inr (Or.inl (by decide))) (by decide) (by decide)⟩

/-- C19. Key derivation is not injective: the distinct pairs `("a_b", "c")`
and `("a", "b_c")` are both accepted by `NewRateLimiter` and both get the
`redisKey` `a_b_c`; the `EvalSha` calls of the two limiters name the same key. -/
theorem redisKey_collision :
    (("a_b", "c") : String × String) ≠ ("a", "b_c") ∧
    (NewRateLimiter msClock world0 "a_b" "c" (some stubStore) 11).2.map
      (fun l => l.redisKey) = some "a_b_c" ∧
    (NewRateLimiter msClock world0 "a" "b_c" (some stubStore) 11).2.map
      (fun l => l.redisKey) = some "a_b_c" ∧
    (runFresh msClock world0 "a_b" "c" stubStore 11 2).map
      (fun r => r.1.map fun o => o.calls) = some [[], [Call.EvalSha "sha" ["a_b_c"]]] ∧
    (runFresh msClock world0 "a" "b_c" stubStore 11 2).map
      (fun r => r.1.map fun o => o.calls) = some [[], [Call.EvalSha "sha" ["a_b_c"]]] := by
  decide

end Ratelimter
